import Mathlib

/-!
Verification of the Radiance HDR decoding and tone-mapping core of this
repository (`scripts/app.js`). The decoder `parseRadianceHDR` and the
tone-mapping helpers `tonemapACES` / `toSRGB` are embedded shallowly:

* the input `ArrayBuffer` becomes a `List Nat` of byte values;
* text lines are handled as byte lists (the file's header is ASCII; the
  `TextDecoder` step is modelled as the identity on byte values);
* JavaScript `Uint8Array` semantics are modelled faithfully: reading out of
  bounds yields `undefined` (modelled with `Option` where the distinction is
  observable, and by the value `0` where JavaScript coerces `undefined` to `0`
  on a typed-array store), and writing out of bounds is silently dropped;
* the one place where an out-of-bounds read makes the JavaScript loop spin
  forever (a control-byte read past the end of the buffer leaves `x` and the
  loop condition unchanged on every iteration) is modelled by the explicit
  outcome `diverge`;
* IEEE doubles are modelled as `ℚ` in the decoder (all values produced there,
  `byte * 2^(e-128)/256`, are exactly representable) and as `ℝ` in the tone
  mapper (where `Math.pow` is irrational).
-/

set_option maxRecDepth 20000

/-! ## Byte-level string helpers (JavaScript semantics) -/

/-- JavaScript whitespace bytes relevant to `trim` and `split(/\s+/)` on the
ASCII header lines: tab, LF, VT, FF, CR, space. -/
def jsIsWs (b : Nat) : Bool :=
  b == 9 || b == 10 || b == 11 || b == 12 || b == 13 || b == 32

/-- ASCII decimal digit test, as used by `parseInt(_, 10)`. -/
def jsIsDigit (b : Nat) : Bool := 48 ≤ b && b ≤ 57

/-- Byte-level model of `String.prototype.toUpperCase` on ASCII. -/
def jsUpper (b : Nat) : Nat := if 97 ≤ b ∧ b ≤ 122 then b - 32 else b

/-- Byte-level model of `String.prototype.trim`. -/
def jsTrim (l : List Nat) : List Nat :=
  (((l.dropWhile fun b => jsIsWs b).reverse.dropWhile fun b => jsIsWs b).reverse)

/-- Whether the byte list `l` starts with the byte list `p`
(model of `String.prototype.startsWith`). -/
def jsStartsWith : List Nat → List Nat → Bool
  | [], _ => true
  | _ :: _, [] => false
  | p :: ps, a :: as => p == a && jsStartsWith ps as

/-- Model of `String.prototype.split` with a single-character separator:
every separator occurrence produces a boundary (empty pieces included). -/
def jsSplitChar (sep : Nat) (l : List Nat) : List (List Nat) :=
  l.foldr
    (fun b acc =>
      if b = sep then [] :: acc
      else
        match acc with
        | [] => [[b]]
        | t :: rest => (b :: t) :: rest)
    [[]]

/-- Worker for `split(/\s+/)`: splits at maximal whitespace runs, keeping an
empty leading piece when the string starts with whitespace and an empty
trailing piece when it ends with whitespace (JavaScript behaviour). The fuel
argument is structural; `l.length + 1` is always sufficient. -/
def jsSplitWsAux : Nat → List Nat → List (List Nat)
  | 0, _ => [[]]
  | fuel + 1, l =>
    let tok := l.takeWhile fun b => !jsIsWs b
    let rest := l.dropWhile fun b => !jsIsWs b
    if rest.isEmpty then [tok]
    else tok :: jsSplitWsAux fuel (rest.dropWhile fun b => jsIsWs b)

/-- Model of `str.split(/\s+/)` on a byte list. -/
def jsSplitWs (l : List Nat) : List (List Nat) := jsSplitWsAux (l.length + 1) l

/-- Value of a list of ASCII digit bytes, accumulated left to right. -/
def digitsVal (l : List Nat) : Nat := l.foldl (fun a d => 10 * a + (d - 48)) 0

/-- Model of `parseInt(tok, 10)`: skip leading whitespace, read an optional
sign, then the longest prefix of decimal digits; `none` models `NaN`. -/
def jsParseInt (tok : List Nat) : Option Int :=
  let t := tok.dropWhile fun b => jsIsWs b
  let sg : Int := if t.head? = some 45 then -1 else 1
  let r := if t.head? = some 43 ∨ t.head? = some 45 then t.drop 1 else t
  let ds := r.takeWhile fun b => jsIsDigit b
  if ds.isEmpty then none else some (sg * (digitsVal ds : Int))

/-- JavaScript falsiness of the `width`/`height` variables in
`parseRadianceHDR`: `undefined` (never assigned) and `0` are falsy. -/
def jsFalsy : Option Int → Bool
  | none => true
  | some v => v == 0

/-! ## The (buggy) fallback regex of the resolution parser

In the source the fallback regex literal (line 179) contains an escaped
backslash: it matches an optional minus sign, a literal backslash character,
then one or more letters `d` — not digits. It is modelled exactly: on header
lines without a backslash it never matches. -/

/-- Try to match the fallback pattern (optional minus `45`, backslash `92`,
one or more `d` = `100`) at the head of the list; on success return the
matched bytes and the rest. -/
def bsMatchAt : List Nat → Option (List Nat × List Nat)
  | 45 :: 92 :: 100 :: r =>
      some (45 :: 92 :: 100 :: r.takeWhile (fun b => b == 100),
            r.dropWhile fun b => b == 100)
  | 92 :: 100 :: r =>
      some (92 :: 100 :: r.takeWhile (fun b => b == 100),
            r.dropWhile fun b => b == 100)
  | _ => none

/-- Scan for all matches of the fallback regex (model of `String.match` with
the `g` flag); fuel-structural, `l.length + 1` suffices. -/
def bsScan : Nat → List Nat → List (List Nat)
  | 0, _ => []
  | fuel + 1, l =>
    match l with
    | [] => []
    | _ :: t =>
      match bsMatchAt l with
      | some (m, rest) => m :: bsScan fuel rest
      | none => bsScan fuel t

/-- All matches of the fallback pattern in `l` (the `nums` fallback). -/
def jsResNums (l : List Nat) : List (List Nat) := bsScan (l.length + 1) l

/-! ## Header text constants (ASCII bytes of the literals in app.js) -/

/-- Bytes of the magic prefix literal `#?RADIANCE`. -/
def magicRad : List Nat := [35, 63, 82, 65, 68, 73, 65, 78, 67, 69]

/-- Bytes of the magic prefix literal `#?RGBE`. -/
def magicRgbe : List Nat := [35, 63, 82, 71, 66, 69]

/-- Bytes of the literal `FORMAT=`. -/
def fmtKey : List Nat := [70, 79, 82, 77, 65, 84, 61]

/-- Bytes of the literal `32-bit_rle_rgbe`. -/
def fmtVal : List Nat :=
  [51, 50, 45, 98, 105, 116, 95, 114, 108, 101, 95, 114, 103, 98, 101]

/-! ## Reading header lines -/

/-- Model of the `readLine` closure: take bytes up to the first `0x0a`,
skip the newline, and return the trimmed line together with the rest. -/
def readLine (rem : List Nat) : List Nat × List Nat :=
  (jsTrim (rem.takeWhile fun b => b != 10),
   (rem.dropWhile fun b => b != 10).drop 1)

/-- Model of the header-variable loop: read lines until an empty one,
recording the value of the last `FORMAT=` line. Fuel-structural;
`rem.length + 1` is always sufficient because every non-final iteration
consumes at least one byte. Returns the recorded format and the rest. -/
def varLoop : Nat → List Nat → List Nat → List Nat × List Nat
  | 0, rem, fmt => (fmt, rem)
  | fuel + 1, rem, fmt =>
    let p := readLine rem
    if p.1.isEmpty then (fmt, p.2)
    else
      let fmt' := if jsStartsWith fmtKey p.1 then (jsSplitChar 61 p.1).getD 1 [] else fmt
      varLoop fuel p.2 fmt'

/-! ## Resolution-line parsing -/

/-- One step of the token-pair loop over the resolution line: given the
current `(width?, height?)` state and a pair `(tokens[i], tokens[i+1])`,
parse the second token as an integer and, if it is numeric, assign it to
`width` when the first token contains `X` and to `height` when it contains
`Y` (both checks on the uppercased token, both possibly firing). -/
def resStep (st : Option Int × Option Int) (pair : List Nat × List Nat) :
    Option Int × Option Int :=
  match jsParseInt pair.2 with
  | none => st
  | some v =>
    ((if (pair.1.map jsUpper).contains 88 then some v else st.1),
     (if (pair.1.map jsUpper).contains 89 then some v else st.2))

/-- The whole token loop of the resolution parser. -/
def parseRes (tokens : List (List Nat)) : Option Int × Option Int :=
  (tokens.zip (tokens.drop 1)).foldl resStep (none, none)

/-! ## Scanline decoding -/

/-- Overwrite index `i` of a list, silently ignoring out-of-bounds indices —
exactly the store semantics of a JavaScript typed array. -/
def setAt {α : Type} : List α → Nat → α → List α
  | [], _, _ => []
  | _ :: t, 0, v => v :: t
  | a :: t, i + 1, v => a :: setAt t i v

/-- Write `cnt` copies of `rep` at consecutive indices starting at `i`
(the run branch of the RLE loop). -/
def writeRun : List Nat → Nat → Nat → Nat → List Nat
  | sl, _, _, 0 => sl
  | sl, i, rep, cnt + 1 => writeRun (setAt sl i rep) (i + 1) rep cnt

/-- Write the given bytes at consecutive indices starting at `i`
(the literal branch of the RLE loop). -/
def writeLits : List Nat → Nat → List Nat → List Nat
  | sl, _, [] => sl
  | sl, i, v :: vs => writeLits (setAt sl i v) (i + 1) vs

/-- Result of decoding the spans of one component plane. -/
inductive SpanRes where
  | ok (sl : List Nat) (rem : List Nat)
  | diverge
  | fuelOut
  deriving DecidableEq, Repr

/-- The `while (x < width)` span loop for one component plane `c`.

Faithful to the source: a control byte `> 128` is a run (`val - 128` copies
of the next byte), a control byte `≤ 128` is a literal span of that many
following bytes; reads past the end of the buffer store `0` (JavaScript
coerces `undefined` to `0` on a `Uint8Array` store) and writes past the end
of `sl` are dropped. When the control byte itself is read past the end of
the buffer, the JavaScript loop makes no progress on `x` and spins forever;
this is the `diverge` outcome. Fuel is structural; every iteration consumes
at least one input byte, so `rem.length + 1` fuel never yields `fuelOut`. -/
def decodeSpans : Nat → Nat → Nat → List Nat → Nat → List Nat → SpanRes
  | 0, _, _, _, _, _ => .fuelOut
  | fuel + 1, width, c, rem, x, sl =>
    if x < width then
      match rem with
      | [] => .diverge
      | v :: rest =>
        if 128 < v then
          decodeSpans fuel width c (rest.drop 1) (x + (v - 128))
            (writeRun sl (c * width + x) (rest.headD 0) (v - 128))
        else
          decodeSpans fuel width c (rest.drop v) (x + v)
            (writeLits sl (c * width + x)
              (rest.take v ++ List.replicate (v - rest.length) 0))
    else .ok sl rem

/-- Decode one component plane starting from the current buffer position. -/
def decodePlane (width c : Nat) (rem : List Nat) (sl : List Nat) : SpanRes :=
  decodeSpans (rem.length + 1) width c rem 0 sl

/-- The `for (c = 0; c < 4; c++)` loop: decode `k` consecutive planes
starting at plane index `c`. -/
def decodePlanesFrom : Nat → Nat → Nat → List Nat → List Nat → SpanRes
  | 0, _, _, rem, sl => .ok sl rem
  | k + 1, c, width, rem, sl =>
    match decodePlane width c rem sl with
    | .ok sl' rem' => decodePlanesFrom k (c + 1) width rem' sl'
    | r => r

/-! ## RGBE to linear radiance -/

/-- Per-pixel conversion from the four plane bytes to linear radiance,
transcribed from the pixel loop of `parseRadianceHDR`: exponent `0` yields
`(0,0,0)`; otherwise each mantissa byte is scaled by `2^(e-128)/256`. -/
def rgbeToLinear (r g b e : Nat) : ℚ × ℚ × ℚ :=
  if e = 0 then (0, 0, 0)
  else
    ((r : ℚ) * ((2 : ℚ) ^ ((e : ℤ) - 128) / 256),
     (g : ℚ) * ((2 : ℚ) ^ ((e : ℤ) - 128) / 256),
     (b : ℚ) * ((2 : ℚ) ^ ((e : ℤ) - 128) / 256))

/-- Write one pixel's three samples into the output buffer at base index
`idx` (model of the three `data[...] = ...` stores). -/
def writePixel (data : List ℚ) (idx : Nat) (p : ℚ × ℚ × ℚ) : List ℚ :=
  setAt (setAt (setAt data idx p.1) (idx + 1) p.2.1) (idx + 2) p.2.2

/-- The per-row pixel loop: for `k` remaining columns starting at column `x`,
read the four plane bytes from the scanline buffer and store the converted
pixel at `(rowBase + x) * 3`. Out-of-range scanline reads yield `0`, matching
`Uint8Array` semantics combined with arithmetic on `undefined` (which can
only arise for out-of-range widths; in-range indices are always present). -/
def writeRowAux : Nat → Nat → Nat → Nat → List Nat → List ℚ → List ℚ
  | 0, _, _, _, _, data => data
  | k + 1, x, width, rowBase, sl, data =>
    writeRowAux k (x + 1) width rowBase sl
      (writePixel data ((rowBase + x) * 3)
        (rgbeToLinear (sl.getD x 0) (sl.getD (width + x) 0)
          (sl.getD (2 * width + x) 0) (sl.getD (3 * width + x) 0)))

/-- Result of the row loop. -/
inductive RowsRes where
  | ok (data : List ℚ)
  | err (msg : Nat)
  | diverge
  deriving DecidableEq, Repr

/-! ## Decode errors

Each JavaScript `throw new Error(msg)` site gets its own constructor, with
the dynamic part of the message (where there is one) carried as data. -/

/-- The distinct `throw` sites of `parseRadianceHDR`. -/
inductive JsErr where
  | notRadiance
  | unsupportedFormat (fmt : List Nat)
  | unexpectedResolution (line : List Nat)
  | rangeErr
  | unsupportedScanline
  | scanlineWidthMismatch
  deriving DecidableEq, Repr

/-- The decoded image record `{ width, height, data }`. -/
structure RadImage where
  width : Int
  height : Int
  data : List ℚ
  deriving DecidableEq, Repr

/-- Result of a whole decode: a structured image, a thrown error, or
non-termination of the JavaScript loop. -/
inductive Outcome where
  | ok (img : RadImage)
  | err (e : JsErr)
  | diverge
  deriving DecidableEq, Repr

/-- The `for (y = 0; y < height; y++)` row loop: check the `(2,2)` sentinel
and the declared big-endian scanline width, decode the four planes, then run
the pixel loop. The scanline buffer `sl` is allocated once and reused across
rows, as in the source. -/
def decodeRows : Nat → Nat → Nat → List Nat → List Nat → List ℚ → RowsRes
  | 0, _, _, _, _, data => .ok data
  | k + 1, y, w, rem, sl, data =>
    if rem.get? 0 = some 2 ∧ rem.get? 1 = some 2 then
      if (rem.getD 2 0) * 256 + rem.getD 3 0 = w then
        match decodePlanesFrom 4 0 w (rem.drop 4) sl with
        | .ok sl' rem' =>
            decodeRows k (y + 1) w rem' sl' (writeRowAux w 0 w (y * w) sl' data)
        | _ => .diverge
      else .err 1
    else .err 0

/-- The resolution-line parsing stage: the token-pair loop, then (when a
value is still falsy) the broken regex fallback. Transcribed from lines
169-185 of the source. -/
def resPhase (resLine : List Nat) : Option Int × Option Int :=
  let tokens := jsSplitWs (jsTrim resLine)
  let wh := parseRes tokens
  if jsFalsy wh.1 || jsFalsy wh.2 then
    let nums := jsResNums resLine
    if 2 ≤ nums.length then
      ((if jsFalsy wh.1 then jsParseInt (nums.getD 1 []) else wh.1),
       (if jsFalsy wh.2 then jsParseInt (nums.getD 0 []) else wh.2))
    else wh
  else wh

/-- The allocation and row-loop stage: `new Float32Array(numPixels*3)` and
`new Uint8Array(width*4)` throw a `RangeError` on a negative length, then
the row loop runs over the remaining bytes. -/
def scanPhase (w h : Int) (body : List Nat) : Outcome :=
  if w * h * 3 < 0 then .err .rangeErr
  else if w * 4 < 0 then .err .rangeErr
  else
    match decodeRows h.toNat 0 w.toNat body (List.replicate (w.toNat * 4) 0)
        (List.replicate ((w * h * 3).toNat) 0) with
    | .ok d => .ok ⟨w, h, d⟩
    | .err 0 => .err .unsupportedScanline
    | .err _ => .err .scanlineWidthMismatch
    | .diverge => .diverge

/-- Full decoder, transcribed stage by stage from `parseRadianceHDR`:
magic line, variable block, resolution line (with the token-pair loop, the
broken regex fallback and the truthiness checks), output allocation, then
the row loop. -/
def parseRadianceHDR (bytes : List Nat) : Outcome :=
  let m := readLine bytes
  if !jsStartsWith magicRad m.1 && !jsStartsWith magicRgbe m.1 then
    .err .notRadiance
  else
    let fv := varLoop (m.2.length + 1) m.2 []
    if fv.1 ≠ fmtVal then .err (.unsupportedFormat fv.1)
    else
      let rl := readLine fv.2
      let wh' := resPhase rl.1
      if jsFalsy wh'.1 || jsFalsy wh'.2 then .err (.unexpectedResolution rl.1)
      else scanPhase (wh'.1.getD 0) (wh'.2.getD 0) rl.2

/-! ## Tone mapping (renderHDR, tonemapACES, toSRGB)

`Math.pow` makes these values irrational, so this part of the pipeline is
modelled over `ℝ` (with `Real.rpow` for `Math.pow`). -/

/-- The filmic curve of `tonemapACES`, transcribed verbatim. -/
noncomputable def tonemapACES (x : ℝ) : ℝ :=
  (x * (2.51 * x + 0.03)) / (x * (2.43 * x + 0.59) + 0.14)

/-- Model of `toSRGB`: clamp to [0,1] then `Math.pow(clamped, 1/2.2)`
(`Real.rpow` models `Math.pow`). -/
noncomputable def toSRGB (x : ℝ) : ℝ :=
  (min 1 (max 0 x)) ^ ((1 : ℝ) / 2.2)

/-- Round to the nearest integer, ties to even — the rounding mode of the
ECMAScript `ToUint8Clamp` conversion used by `Uint8ClampedArray` stores. -/
noncomputable def roundTiesEven (v : ℝ) : ℤ :=
  if Int.fract v < 1 / 2 then ⌊v⌋
  else if 1 / 2 < Int.fract v then ⌊v⌋ + 1
  else if Even ⌊v⌋ then ⌊v⌋ else ⌊v⌋ + 1

/-- The ECMAScript `ToUint8Clamp` conversion applied by an assignment to an
`ImageData` pixel buffer (a `Uint8ClampedArray`): clamp to [0,255], then
round to nearest with ties to even. -/
noncomputable def jsToUint8Clamp (v : ℝ) : ℕ :=
  if v ≤ 0 then 0 else if 255 ≤ v then 255 else (roundTiesEven v).toNat

/-- The display byte computed by `renderHDR` for one channel value:
`out[j] = toSRGB(tonemapACES(x)) * 255` stored into a `Uint8ClampedArray`. -/
noncomputable def displayByte (x : ℝ) : ℕ :=
  jsToUint8Clamp (toSRGB (tonemapACES x) * 255)

/-- Modelled from the spec's words, for comparison with `displayByte` alone
(claim C6): `byte = floor(g * 255)`, clamped to `[0, 255]`, where `g` is the
same gamma-encoded clamped curve output the code computes. -/
noncomputable def specFloorByte (x : ℝ) : ℕ :=
  if ⌊toSRGB (tonemapACES x) * 255⌋ < 0 then 0
  else if 255 < ⌊toSRGB (tonemapACES x) * 255⌋ then 255
  else ⌊toSRGB (tonemapACES x) * 255⌋.toNat

/-! ## Well-formed new-format scanline streams

A well-formed component plane is a serialized sequence of spans whose
coverages add up exactly to the width; a well-formed row is the `(2,2)`
sentinel, the big-endian width, and four such planes; a well-formed body is
one such row per scanline. These definitions describe input streams, and the
theorems show the decoder accepts exactly this shape. -/

/-- One span of the new-format run-length encoding. -/
inductive RleSpan where
  | run (n v : Nat)
  | lit (vs : List Nat)
  deriving DecidableEq, Repr

/-- Serialized bytes of a span: a run is the control byte `128 + n` followed
by the repeated value; a literal is its length followed by its bytes. -/
def spanSer : RleSpan → List Nat
  | .run n v => [128 + n, v]
  | .lit vs => vs.length :: vs

/-- Number of columns a span covers. -/
def spanCover : RleSpan → Nat
  | .run n _ => n
  | .lit vs => vs.length

/-- Validity of a span as a byte-level encoding: run lengths are 1..127
(so the control byte is 129..255), literal lengths are 1..128, and all
emitted values are bytes. -/
def spanWf : RleSpan → Prop
  | .run n v => 1 ≤ n ∧ n ≤ 127 ∧ v ≤ 255
  | .lit vs => 1 ≤ vs.length ∧ vs.length ≤ 128 ∧ ∀ v ∈ vs, v ≤ 255

instance : DecidablePred spanWf := fun s => by
  cases s with
  | run n v => exact inferInstanceAs (Decidable (_ ∧ _ ∧ _))
  | lit vs => exact inferInstanceAs (Decidable (_ ∧ _ ∧ _))

/-- Serialized bytes of a list of spans. -/
def serSpans : List RleSpan → List Nat
  | [] => []
  | s :: t => spanSer s ++ serSpans t

/-- Total coverage of a list of spans. -/
def coverSpans : List RleSpan → Nat
  | [] => 0
  | s :: t => spanCover s + coverSpans t

/-- All spans valid. -/
def spansWf (l : List RleSpan) : Prop := ∀ s ∈ l, spanWf s

/-- The four component planes of one new-format row. -/
structure RowSpec where
  p0 : List RleSpan
  p1 : List RleSpan
  p2 : List RleSpan
  p3 : List RleSpan
  deriving DecidableEq, Repr

/-- A well-formed row: each plane is valid and covers exactly `w` columns. -/
def rowWf (w : Nat) (r : RowSpec) : Prop :=
  (spansWf r.p0 ∧ coverSpans r.p0 = w) ∧ (spansWf r.p1 ∧ coverSpans r.p1 = w) ∧
  (spansWf r.p2 ∧ coverSpans r.p2 = w) ∧ (spansWf r.p3 ∧ coverSpans r.p3 = w)

/-- Serialized bytes of one row: sentinel `(2,2)`, big-endian width, then
the four serialized planes. -/
def serRow (w : Nat) (r : RowSpec) : List Nat :=
  2 :: 2 :: (w / 256) :: (w % 256) ::
    (serSpans r.p0 ++ (serSpans r.p1 ++ (serSpans r.p2 ++ serSpans r.p3)))

/-- Serialized bytes of a list of rows. -/
def serRows (w : Nat) : List RowSpec → List Nat
  | [] => []
  | r :: t => serRow w r ++ serRows w t

/-- All rows well-formed. -/
def rowsWf (w : Nat) (rs : List RowSpec) : Prop := ∀ r ∈ rs, rowWf w r

/-! ## Construction of well-formed whole inputs -/

/-- Join byte tokens with single spaces. -/
def joinSp : List (List Nat) → List Nat
  | [] => []
  | [t] => t
  | t :: rest => t ++ 32 :: joinSp rest

/-- ASCII decimal digits of `n` (most significant first); fuel-structural,
`n + 1` fuel always suffices. -/
def natDecAux : Nat → Nat → List Nat
  | 0, _ => []
  | fuel + 1, n => if n < 10 then [48 + n] else natDecAux fuel (n / 10) ++ [48 + n % 10]

/-- ASCII decimal rendering of `n`. -/
def natDec (n : Nat) : List Nat := natDecAux (n + 1) n

/-- The resolution line in either axis order: `-Y h +X w` when `order` is
true, `+X w -Y h` otherwise. -/
def resLineBytes (order : Bool) (w h : Nat) : List Nat :=
  if order then joinSp [[45, 89], natDec h, [43, 88], natDec w]
  else joinSp [[43, 88], natDec w, [45, 89], natDec h]

/-- A complete input: magic line, `FORMAT=32-bit_rle_rgbe` line, the blank
line ending the variable block, the resolution line, then the body bytes. -/
def mkInput (order : Bool) (w h : Nat) (body : List Nat) : List Nat :=
  magicRad ++ 10 :: (fmtKey ++ fmtVal ++ 10 :: 10 :: (resLineBytes order w h ++ 10 :: body))

/-- Whether an outcome is a successfully decoded image. -/
def Outcome.isOk : Outcome → Bool
  | .ok _ => true
  | _ => false

/-! ## Concrete inputs used by the individual claims -/

/-- A header for a 2x1 image followed by a legitimate flat-encoded row
(two bare 4-byte RGBE pixels), the encoding claim C1 says is accepted. -/
def c1Input : List Nat := mkInput true 2 1 [10, 20, 30, 140, 50, 60, 70, 140]

/-- A 2x1 new-format input whose exponent plane is a run of length 3 on a
width-2 row: the run writes past the plane's last column. -/
def c2Input : List Nat :=
  mkInput true 2 1 ([2, 2, 0, 2] ++ [2, 10, 20, 2, 30, 40, 2, 50, 60, 131, 130])

/-- A 2x1 new-format input that ends in the middle of the first plane's
literal span: the next control-byte read runs past the buffer. -/
def c2TruncInput : List Nat := mkInput true 2 1 [2, 2, 0, 2, 1]

/-- A 1x1 new-format input truncated right after the scanline sentinel. -/
def c3Input : List Nat := mkInput true 1 1 [2, 2, 0, 1]

/-- A full header whose resolution line is `-Y -2 +X 3` (negative extent). -/
def c5NegInput : List Nat :=
  magicRad ++ 10 :: (fmtKey ++ fmtVal ++ 10 :: 10 ::
    ([45, 89, 32, 45, 50, 32, 43, 88, 32, 51] ++ [10]))

/-- A full header whose resolution line is `-Y 0 +X 3` (zero extent). -/
def c5ZeroInput : List Nat :=
  magicRad ++ 10 :: (fmtKey ++ fmtVal ++ 10 :: 10 ::
    ([45, 89, 32, 48, 32, 43, 88, 32, 51] ++ [10]))

/-- A full header whose resolution line is `-Y foo +X 3` (non-numeric). -/
def c5FooInput : List Nat :=
  magicRad ++ 10 :: (fmtKey ++ fmtVal ++ 10 :: 10 ::
    ([45, 89, 32, 102, 111, 111, 32, 43, 88, 32, 51] ++ [10]))

/-- The four tokens of the constructed resolution line. -/
def resToks (order : Bool) (w h : Nat) : List (List Nat) :=
  if order then [[45, 89], natDec h, [43, 88], natDec w]
  else [[43, 88], natDec w, [45, 89], natDec h]

instance : DecidablePred spansWf := fun l => List.decidableBAll _ l

instance (w : Nat) (r : RowSpec) : Decidable (rowWf w r) := by
  unfold rowWf
  infer_instance

instance (w : Nat) (rs : List RowSpec) : Decidable (rowsWf w rs) :=
  List.decidableBAll _ rs

/-! ## Claim C10 — machinery: what values can flow into the output buffer -/

/-- A sample value the decoder can produce: zero, or a plane byte scaled by
`2^(e-128)/256` for an exponent byte `e` in `1..255`. -/
def GoodSample (s : ℚ) : Prop :=
  s = 0 ∨ ∃ v e : Nat, v ≤ 255 ∧ 1 ≤ e ∧ e ≤ 255 ∧
    s = (v : ℚ) * ((2 : ℚ) ^ ((e : ℤ) - 128) / 256)

/-- A concrete 2x1 new-format input whose exponent plane is all zeros. -/
def c10Input : List Nat :=
  mkInput true 2 1 ([2, 2, 0, 2] ++ [2, 1, 2, 2, 3, 4, 2, 5, 6, 2, 0, 0])

/-- The image `c10Input` decodes to: two zero-radiance pixels. -/
def c10Img : RadImage := ⟨2, 1, [0, 0, 0, 0, 0, 0]⟩

/-! ## Claim C1 — no flat-encoding fallback exists -/

/-- C1, counterexample: a row whose leading four bytes are not the
new-format sentinel — here a well-formed flat-encoded row of two packed
RGBE pixels — does not decode as flat; the decoder throws
`Unsupported scanline format` instead of producing the row's planes. -/
theorem C1_counterexample : parseRadianceHDR c1Input = .err .unsupportedScanline := by
  decide

/-! ## Claim C2 — overruns and exhausted buffers do not raise DecodeError -/

/-- C2, counterexample: an input whose exponent-plane run writes past the
plane's `width` columns decodes successfully (the out-of-range store is
silently dropped by the typed array), instead of failing with a decode
error as the claim requires; the decoder has no such error at all. -/
theorem C2_counterexample : Outcome.isOk (parseRadianceHDR c2Input) = true := by
  decide

/-- C2, amended: the new-format scanline decoder performs no bounds checks.
A run that would write past the plane's `width` columns is executed anyway
(stores beyond the scanline buffer are dropped) and the decode succeeds
with no error, and a control-byte read past the end of the input buffer
makes the decode loop forever instead of failing. -/
theorem C2_no_bounds_errors :
    Outcome.isOk (parseRadianceHDR c2Input) = true ∧
    parseRadianceHDR c2TruncInput = .diverge := by
  constructor
  · decide
  · decide

/-! ## Claim C3 — decode does not always terminate -/

/-- C3: on an input whose scanline data ends while a plane still has columns
to fill, the control-byte read returns `undefined`, the span loop makes no
progress, and `parseRadianceHDR` runs forever — modelled by the `diverge`
outcome. This contradicts the termination claim; the bug is in the code. -/
theorem C3_decode_diverges : parseRadianceHDR c3Input = .diverge := by
  decide

/-! ## Claim C5 — negative extents bypass the resolution error -/

/-- C5, counterexample: with resolution line `-Y -2 +X 3` the parser accepts
`height = -2` (negative numbers are truthy), and the decode fails only later
with the typed-array `RangeError` from `new Float32Array(-18)` — not with
the resolution error carrying the line's text. -/
theorem C5_counterexample : parseRadianceHDR c5NegInput = .err .rangeErr := by
  decide

/-- C5, amended: a zero or non-numeric extent does fail with the
`Unexpected resolution line` error carrying the offending line's text, but
a negative extent is accepted by the resolution parser and the decode fails
only at output-buffer allocation with a `RangeError` that does not carry
the line. -/
theorem C5_resolution_errors :
    parseRadianceHDR c5ZeroInput =
        .err (.unexpectedResolution [45, 89, 32, 48, 32, 43, 88, 32, 51]) ∧
    parseRadianceHDR c5FooInput =
        .err (.unexpectedResolution [45, 89, 32, 102, 111, 111, 32, 43, 88, 32, 51]) ∧
    parseRadianceHDR c5NegInput = .err .rangeErr := by
  refine ⟨by decide, by decide, by decide⟩

/-! ## Claim C7 — the RGBE-to-radiance conversion -/

/-- C7: the per-pixel conversion yields exactly `(0,0,0)` when the exponent
byte is `0`, regardless of the mantissa bytes, and otherwise scales each
mantissa byte by `2^(e-128)/256`; no clamping is applied, so a sample can
exceed `1` (witnessed at `e = 136`). -/
theorem C7_rgbe_conversion :
    (∀ r g b e : Nat,
      (e = 0 → rgbeToLinear r g b e = (0, 0, 0)) ∧
      (e ≠ 0 → rgbeToLinear r g b e =
        ((r : ℚ) * ((2 : ℚ) ^ ((e : ℤ) - 128) / 256),
         (g : ℚ) * ((2 : ℚ) ^ ((e : ℤ) - 128) / 256),
         (b : ℚ) * ((2 : ℚ) ^ ((e : ℤ) - 128) / 256)))) ∧
    1 < (rgbeToLinear 255 0 0 136).1 := by
  constructor
  · intro r g b e
    constructor
    · intro he
      simp [rgbeToLinear, he]
    · intro he
      simp [rgbeToLinear, he]
  · norm_num [rgbeToLinear]

/-- C7, witness: both branches of the conversion at concrete bytes. -/
theorem C7_witness :
    rgbeToLinear 7 8 9 0 = (0, 0, 0) ∧
    rgbeToLinear 1 2 3 129 =
      ((1 : ℚ) * ((2 : ℚ) ^ ((129 : ℤ) - 128) / 256),
       (2 : ℚ) * ((2 : ℚ) ^ ((129 : ℤ) - 128) / 256),
       (3 : ℚ) * ((2 : ℚ) ^ ((129 : ℤ) - 128) / 256)) :=
  ⟨(C7_rgbe_conversion.1 7 8 9 0).1 rfl,
   (C7_rgbe_conversion.1 1 2 3 129).2 (by decide)⟩

/-! ## Claim C8 — shape of the filmic curve -/

/-- The denominator of the filmic curve is positive for every real input
(its discriminant is negative), so the curve is everywhere defined. -/
lemma denomPos (x : ℝ) : 0 < x * (2.43 * x + 0.59) + 0.14 := by
  nlinarith [sq_nonneg (486 * x + 59)]

/-- C8: the filmic curve satisfies `f(0) = 0` and is monotonically
non-decreasing on `[0, 10]`. -/
theorem C8_curve_monotone :
    tonemapACES 0 = 0 ∧
    ∀ x y : ℝ, 0 ≤ x → x ≤ y → y ≤ 10 → tonemapACES x ≤ tonemapACES y := by
  constructor
  · unfold tonemapACES; norm_num
  · intro x y hx hxy _
    have hy : (0:ℝ) ≤ y := le_trans hx hxy
    unfold tonemapACES
    rw [div_le_div_iff₀ (denomPos x) (denomPos y)]
    nlinarith [mul_nonneg (mul_nonneg (sub_nonneg.mpr hxy) hx) hy,
               mul_nonneg (sub_nonneg.mpr hxy) hx,
               mul_nonneg (sub_nonneg.mpr hxy) hy,
               sub_nonneg.mpr hxy]

/-- C8, witness: the curve compared at the concrete points 1 and 2. -/
theorem C8_witness :
    tonemapACES 0 = 0 ∧
    ((0:ℝ) ≤ 1 ∧ (1:ℝ) ≤ 2 ∧ (2:ℝ) ≤ 10 ∧ tonemapACES 1 ≤ tonemapACES 2) :=
  ⟨C8_curve_monotone.1,
   by norm_num, by norm_num, by norm_num,
   C8_curve_monotone.2 1 2 (by norm_num) (by norm_num) (by norm_num)⟩

/-! ## Claim C4 — negative inputs are not clamped before the curve -/

/-- C4, amended: there is no clamp before the filmic curve. For every
channel value `x ≤ -1/4` the curve output is at least 1, so after the
`[0,1]` clamp inside `toSRGB` the display byte saturates at `255` — the
opposite of the byte `0` that clamping `x` to `0` would produce. -/
theorem C4_negative_saturates (x : ℝ) (hx : x ≤ -(1/4)) : displayByte x = 255 := by
  have hf : 1 ≤ tonemapACES x := by
    unfold tonemapACES
    rw [le_div_iff₀ (denomPos x)]
    nlinarith [mul_nonneg (by linarith : (0:ℝ) ≤ -x - 1/4)
      (by linarith : (0:ℝ) ≤ 0.58 - 0.08 * x)]
  have h1 : toSRGB (tonemapACES x) = 1 := by
    unfold toSRGB
    rw [max_eq_right (le_trans zero_le_one hf), min_eq_left hf]
    exact Real.one_rpow _
  unfold displayByte
  rw [h1]
  unfold jsToUint8Clamp
  norm_num

/-- C4, counterexample: the claim says a negative channel value is clamped
to `0` before the curve, so its display byte equals the byte for input `0`;
in the code, input `-1` produces byte `255` while input `0` produces `0`. -/
theorem C4_counterexample : displayByte (-1) = 255 ∧ displayByte 0 = 0 := by
  constructor
  · have hf : tonemapACES (-1) = 124 / 99 := by
      unfold tonemapACES
      norm_num
    have h1 : toSRGB (tonemapACES (-1)) = 1 := by
      unfold toSRGB
      rw [hf, max_eq_right (by norm_num : (0:ℝ) ≤ 124 / 99),
        min_eq_left (by norm_num : (1:ℝ) ≤ 124 / 99)]
      exact Real.one_rpow _
    unfold displayByte
    rw [h1]
    unfold jsToUint8Clamp
    norm_num
  · have h0 : tonemapACES 0 = 0 := by unfold tonemapACES; norm_num
    have h1 : toSRGB 0 = 0 := by
      unfold toSRGB
      rw [max_self, min_eq_right (by norm_num : (0:ℝ) ≤ 1)]
      exact Real.zero_rpow (by norm_num)
    unfold displayByte
    rw [h0, h1]
    unfold jsToUint8Clamp
    norm_num

/-- C4, witness: the amended theorem applied at the concrete input `-1`. -/
theorem C4_witness : (-1 : ℝ) ≤ -(1/4) ∧ displayByte (-1) = 255 :=
  ⟨by norm_num, C4_negative_saturates (-1) (by norm_num)⟩

/-! ## Claim C6 — the code rounds to nearest, the spec floors -/

/-- C6, amended: the display byte is the `Uint8ClampedArray` conversion of
`g * 255` — clamp to `[0,255]` and round to nearest with ties to even — not
`floor(g * 255)`; it always lies within one above the spec's floor-based
byte. -/
theorem C6_round_vs_floor (x : ℝ) :
    specFloorByte x ≤ displayByte x ∧ displayByte x ≤ specFloorByte x + 1 := by
  unfold specFloorByte displayByte jsToUint8Clamp
  set v := toSRGB (tonemapACES x) * 255 with hv
  by_cases h0 : v ≤ 0
  · have hf : ⌊v⌋ ≤ 0 := by
      have h := Int.floor_le_floor h0
      simpa using h
    rcases lt_or_eq_of_le hf with hlt | heq
    · rw [if_pos hlt, if_pos h0]; omega
    · rw [if_neg (by omega), if_neg (by omega), if_pos h0]
      simp [heq.symm]
  · push_neg at h0
    by_cases h255 : (255:ℝ) ≤ v
    · have hf : (255:ℤ) ≤ ⌊v⌋ := by
        apply Int.le_floor.mpr; exact_mod_cast h255
      rw [if_neg (by omega), if_neg h0.not_le, if_pos h255]
      rcases lt_or_eq_of_le hf with hlt | heq
      · rw [if_pos hlt]; omega
      · rw [if_neg (by omega)]; omega
    · push_neg at h255
      have hf0 : (0:ℤ) ≤ ⌊v⌋ := Int.floor_nonneg.mpr h0.le
      have hf255 : ⌊v⌋ < 255 := by
        have h : (⌊v⌋ : ℝ) < 255 := lt_of_le_of_lt (Int.floor_le v) h255
        exact_mod_cast h
      rw [if_neg (by omega), if_neg (by omega), if_neg h0.not_le, if_neg h255.not_le]
      have hr : roundTiesEven v = ⌊v⌋ ∨ roundTiesEven v = ⌊v⌋ + 1 := by
        unfold roundTiesEven
        split
        · exact Or.inl rfl
        · split
          · exact Or.inr rfl
          · split
            · exact Or.inl rfl
            · exact Or.inr rfl
      rcases hr with h | h <;> rw [h] <;> omega

/-- C6, counterexample: at channel value `1` the curve output is `127/158`
and `g * 255` lies strictly between `230.5` and `231`, so the code's
round-to-nearest store produces byte `231` while the spec's
`floor(g * 255)` rule produces `230`. -/
theorem C6_counterexample : displayByte 1 = 231 ∧ specFloorByte 1 = 230 := by
  have htm : tonemapACES 1 = 127 / 158 := by unfold tonemapACES; norm_num
  have hb : (0:ℝ) ≤ 127 / 158 := by norm_num
  have hsr : toSRGB (tonemapACES 1) = (127 / 158 : ℝ) ^ ((5:ℝ) / 11) := by
    unfold toSRGB
    rw [htm, max_eq_right hb, min_eq_right (by norm_num : (127/158:ℝ) ≤ 1)]
    norm_num
  set g : ℝ := (127 / 158 : ℝ) ^ ((5:ℝ) / 11) with hgdef
  have hgpow : g ^ (11:ℕ) = (127 / 158 : ℝ) ^ (5:ℕ) := by
    rw [hgdef, ← Real.rpow_natCast ((127/158:ℝ) ^ ((5:ℝ)/11)) 11, ← Real.rpow_mul hb]
    norm_num
  have hg0 : 0 ≤ g := Real.rpow_nonneg hb _
  have hlow : (461 / 510 : ℝ) < g := by
    apply lt_of_pow_lt_pow_left₀ 11 hg0
    rw [hgpow]
    norm_num
  have hhigh : g < (77 / 85 : ℝ) := by
    apply lt_of_pow_lt_pow_left₀ 11 (by norm_num : (0:ℝ) ≤ 77/85)
    rw [hgpow]
    norm_num
  have hv1 : (230.5 : ℝ) < g * 255 := by nlinarith
  have hv2 : g * 255 < 231 := by nlinarith
  have hfloor : ⌊g * 255⌋ = 230 := by
    rw [Int.floor_eq_iff]
    constructor
    · push_cast; linarith
    · push_cast; linarith
  have hfract : (1:ℝ) / 2 < Int.fract (g * 255) := by
    have h : Int.fract (g * 255) = g * 255 - 230 := by
      unfold Int.fract
      rw [hfloor]
      norm_num
    rw [h]
    linarith
  constructor
  · unfold displayByte jsToUint8Clamp
    rw [hsr]
    rw [if_neg (by nlinarith : ¬ g * 255 ≤ 0), if_neg (by nlinarith : ¬ (255:ℝ) ≤ g * 255)]
    unfold roundTiesEven
    rw [if_neg (by linarith : ¬ Int.fract (g * 255) < 1/2), if_pos hfract, hfloor]
    rfl
  · unfold specFloorByte
    rw [hsr, hfloor]
    norm_num
    decide

/-! ## List and byte lemmas for symbolic header parsing -/

/-- takeWhile over an append stopping exactly at `a`. -/
lemma takeWhile_append_stop {p : Nat → Bool} :
    ∀ (l : List Nat) (a : Nat) (r : List Nat),
      (∀ b ∈ l, p b = true) → p a = false →
      (l ++ a :: r).takeWhile p = l := by
  intro l a r hl ha
  induction l with
  | nil => simp [List.takeWhile, ha]
  | cons x t ih =>
    have hx : p x = true := hl x (by simp)
    simp only [List.cons_append, List.takeWhile_cons, hx]
    simp only [if_true]
    rw [ih fun b hb => hl b (by simp [hb])]

/-- dropWhile over an append stopping exactly at `a`. -/
lemma dropWhile_append_stop {p : Nat → Bool} :
    ∀ (l : List Nat) (a : Nat) (r : List Nat),
      (∀ b ∈ l, p b = true) → p a = false →
      (l ++ a :: r).dropWhile p = a :: r := by
  intro l a r hl ha
  induction l with
  | nil => simp [List.dropWhile, ha]
  | cons x t ih =>
    have hx : p x = true := hl x (by simp)
    simp only [List.cons_append, List.dropWhile_cons, hx]
    simp only [if_true]
    exact ih fun b hb => hl b (by simp [hb])

/-- dropWhile is the identity when the head fails the predicate. -/
lemma dropWhile_eq_self_of_head {p : Nat → Bool} :
    ∀ (l : List Nat), (∀ b, l.head? = some b → p b = false) → l.dropWhile p = l := by
  intro l h
  cases l with
  | nil => rfl
  | cons x t => simp [List.dropWhile_cons, h x rfl]

/-- trim is the identity when neither end is whitespace. -/
lemma jsTrim_eq_self (l : List Nat)
    (h1 : ∀ b, l.head? = some b → jsIsWs b = false)
    (h2 : ∀ b, l.reverse.head? = some b → jsIsWs b = false) :
    jsTrim l = l := by
  unfold jsTrim
  rw [dropWhile_eq_self_of_head l h1, dropWhile_eq_self_of_head l.reverse h2,
    List.reverse_reverse]

/-- readLine on a newline-free line followed by a newline. -/
lemma readLine_append (l r : List Nat) (hl : ∀ b ∈ l, b ≠ 10) :
    readLine (l ++ 10 :: r) = (jsTrim l, r) := by
  unfold readLine
  rw [takeWhile_append_stop l 10 r (fun b hb => by simpa using hl b hb) (by simp),
    dropWhile_append_stop l 10 r (fun b hb => by simpa using hl b hb) (by simp)]
  simp

/-! ## Decimal rendering round-trips through parseInt -/

/-- All bytes emitted by `natDecAux` are ASCII digits. -/
lemma natDecAux_digits : ∀ fuel n, n < fuel → ∀ b ∈ natDecAux fuel n, 48 ≤ b ∧ b ≤ 57 := by
  intro fuel
  induction fuel with
  | zero => intro n h; omega
  | succ f ih =>
    intro n _ b hb
    by_cases h10 : n < 10
    · simp [natDecAux, h10] at hb
      omega
    · simp only [natDecAux, if_neg h10, List.mem_append, List.mem_singleton] at hb
      rcases hb with hb | hb
      · exact ih (n / 10) (by omega) b hb
      · have : n % 10 < 10 := Nat.mod_lt _ (by omega)
        omega

/-- `natDecAux` never returns the empty list when given enough fuel. -/
lemma natDecAux_ne_nil : ∀ fuel n, n < fuel → natDecAux fuel n ≠ [] := by
  intro fuel n h
  cases fuel with
  | zero => omega
  | succ f =>
    by_cases h10 : n < 10
    · simp [natDecAux, h10]
    · simp [natDecAux, h10]

/-- Evaluating the digit accumulator over `l ++ [d]`. -/
lemma digitsVal_append (l : List Nat) (d : Nat) :
    digitsVal (l ++ [d]) = 10 * digitsVal l + (d - 48) := by
  unfold digitsVal
  rw [List.foldl_append]
  rfl

/-- The digit accumulator inverts `natDecAux`. -/
lemma digitsVal_natDecAux : ∀ fuel n, n < fuel → digitsVal (natDecAux fuel n) = n := by
  intro fuel
  induction fuel with
  | zero => intro n h; omega
  | succ f ih =>
    intro n hn
    by_cases h10 : n < 10
    · simp [natDecAux, h10, digitsVal]
    · have hdiv : n / 10 < f := by
        have := Nat.div_lt_self (by omega : 0 < n) (by omega : 1 < 10)
        omega
      rw [natDecAux, if_neg h10, digitsVal_append, ih (n / 10) hdiv]
      omega

/-- All bytes of `natDec n` are ASCII digits. -/
lemma natDec_digits (n : Nat) : ∀ b ∈ natDec n, 48 ≤ b ∧ b ≤ 57 :=
  natDecAux_digits (n + 1) n (Nat.lt_succ_self n)

/-- `natDec n` is never empty. -/
lemma natDec_ne_nil (n : Nat) : natDec n ≠ [] :=
  natDecAux_ne_nil (n + 1) n (Nat.lt_succ_self n)

/-- Digit bytes are not whitespace. -/
lemma natDec_not_ws (n : Nat) : ∀ b ∈ natDec n, jsIsWs b = false := by
  intro b hb
  have := natDec_digits n b hb
  simp [jsIsWs]
  omega

/-- takeWhile is the identity when every element satisfies the predicate. -/
lemma takeWhile_eq_self {p : Nat → Bool} :
    ∀ l : List Nat, (∀ b ∈ l, p b = true) → l.takeWhile p = l := by
  intro l h
  induction l with
  | nil => rfl
  | cons x t ih =>
    simp only [List.takeWhile_cons, h x (by simp), if_true]
    rw [ih fun b hb => h b (by simp [hb])]

/-- `parseInt(natDec n, 10)` recovers `n`. -/
lemma jsParseInt_natDec (n : Nat) : jsParseInt (natDec n) = some (n : Int) := by
  obtain ⟨d, t, hdt⟩ : ∃ d t, natDec n = d :: t := by
    cases hnd : natDec n with
    | nil => exact absurd hnd (natDec_ne_nil n)
    | cons d t => exact ⟨d, t, rfl⟩
  have hd : 48 ≤ d ∧ d ≤ 57 := natDec_digits n d (by rw [hdt]; simp)
  have hdrop : (natDec n).dropWhile (fun b => jsIsWs b) = natDec n :=
    dropWhile_eq_self_of_head _ (fun b hb => by
      rw [hdt] at hb
      simp at hb
      subst hb
      simp [jsIsWs]
      omega)
  have hhead : (natDec n).head? = some d := by rw [hdt]; rfl
  have htake : (natDec n).takeWhile (fun b => jsIsDigit b) = natDec n :=
    takeWhile_eq_self _ (fun b hb => by
      have := natDec_digits n b hb
      simp [jsIsDigit]
      omega)
  have hval : digitsVal (natDec n) = n := digitsVal_natDecAux (n + 1) n (Nat.lt_succ_self n)
  have h45 : (some d = some (45 : Nat)) = False := by simp; omega
  have h43 : (some d = some (43 : Nat)) = False := by simp; omega
  have hne : (natDec n).isEmpty = false := by rw [hdt]; rfl
  simp only [jsParseInt, hdrop, hhead, h45, h43, if_false, false_or, or_false, htake,
    hne, Bool.false_eq_true, ite_false, if_false, hval, one_mul]

/-! ## Splitting the constructed resolution line -/

/-- joinSp on at least two tokens exposes one separator. -/
lemma joinSp_cons₂ (t u : List Nat) (rest : List (List Nat)) :
    joinSp (t :: u :: rest) = t ++ 32 :: joinSp (u :: rest) := rfl

/-- The head of a space-join of tokens is the head of the first token. -/
lemma joinSp_head (t : List Nat) (rest : List (List Nat)) (h : t ≠ []) :
    (joinSp (t :: rest)).head? = t.head? := by
  cases rest with
  | nil => rfl
  | cons u rr =>
    rw [joinSp_cons₂]
    cases t with
    | nil => exact absurd rfl h
    | cons x xs => rfl

/-- Splitting a space-join of nonempty, whitespace-free tokens recovers
exactly the tokens, for any sufficient fuel. -/
lemma jsSplitWsAux_joinSp :
    ∀ (toks : List (List Nat)) (fuel : Nat),
      toks ≠ [] →
      (∀ tk ∈ toks, tk ≠ [] ∧ ∀ b ∈ tk, jsIsWs b = false) →
      (joinSp toks).length < fuel →
      jsSplitWsAux fuel (joinSp toks) = toks := by
  intro toks
  induction toks with
  | nil => intro fuel h; exact absurd rfl h
  | cons t rest ih =>
    intro fuel _ hwf hfuel
    obtain ⟨f, rfl⟩ : ∃ f, fuel = f + 1 := ⟨fuel - 1, by omega⟩
    have ht : t ≠ [] ∧ ∀ b ∈ t, jsIsWs b = false := hwf t (by simp)
    cases rest with
    | nil =>
      show jsSplitWsAux (f + 1) (joinSp [t]) = [t]
      have hjoin : joinSp [t] = t := rfl
      rw [hjoin]
      unfold jsSplitWsAux
      rw [takeWhile_eq_self t (fun b hb => by simp [ht.2 b hb]),
        List.dropWhile_eq_nil_iff.mpr (fun b hb => by simp [ht.2 b hb])]
      simp
    | cons u rr =>
      have hu : u ≠ [] ∧ ∀ b ∈ u, jsIsWs b = false := hwf u (by simp)
      rw [joinSp_cons₂]
      unfold jsSplitWsAux
      rw [takeWhile_append_stop t 32 (joinSp (u :: rr))
            (fun b hb => by simp [ht.2 b hb]) (by simp [jsIsWs]),
          dropWhile_append_stop t 32 (joinSp (u :: rr))
            (fun b hb => by simp [ht.2 b hb]) (by simp [jsIsWs])]
      simp only [List.isEmpty_cons, Bool.false_eq_true, if_false]
      have hdrop32 : (32 :: joinSp (u :: rr)).dropWhile (fun b => jsIsWs b) =
          joinSp (u :: rr) := by
        rw [List.dropWhile_cons, if_pos (by decide : jsIsWs 32 = true)]
        exact dropWhile_eq_self_of_head _ (fun b hb => by
          rw [joinSp_head u rr hu.1] at hb
          cases hu' : u with
          | nil => exact absurd hu' hu.1
          | cons x xs =>
            rw [hu'] at hb
            simp at hb
            subst hb
            exact hu.2 x (by rw [hu']; simp))
      rw [hdrop32]
      congr 1
      apply ih f (by simp) (fun tk htk => hwf tk (by simp [htk]))
      have hlen : (joinSp (t :: u :: rr)).length =
          t.length + 1 + (joinSp (u :: rr)).length := by
        rw [joinSp_cons₂]
        simp
        omega
      omega

/-! ## Facts about the constructed resolution line -/

/-- The space-join of nonempty tokens is nonempty. -/
lemma joinSp_ne_nil : ∀ (toks : List (List Nat)), toks ≠ [] →
    (∀ tk ∈ toks, tk ≠ []) → joinSp toks ≠ [] := by
  intro toks hne hwf
  cases toks with
  | nil => exact absurd rfl hne
  | cons t rest =>
    cases rest with
    | nil => exact hwf t (by simp)
    | cons u rr =>
      rw [joinSp_cons₂]
      cases ht : t with
      | nil => exact absurd ht (hwf t (by simp))
      | cons x xs => simp

/-- The last byte of a space-join is the last byte of the last token. -/
lemma joinSp_getLast? : ∀ (toks : List (List Nat)) (t : List Nat),
    (∀ tk ∈ toks, tk ≠ []) → toks.getLast? = some t →
    (joinSp toks).getLast? = t.getLast? := by
  intro toks
  induction toks with
  | nil => intro t _ h; simp at h
  | cons a rest ih =>
    intro t hwf hlast
    cases rest with
    | nil =>
      simp at hlast
      subst hlast
      rfl
    | cons b rr =>
      rw [joinSp_cons₂, List.getLast?_append_cons]
      have hj : joinSp (b :: rr) ≠ [] :=
        joinSp_ne_nil (b :: rr) (by simp) (fun tk htk => hwf tk (by simp [htk]))
      have hlast' : (b :: rr).getLast? = some t := by
        rwa [List.getLast?_cons_cons] at hlast
      rw [← ih t (fun tk htk => hwf tk (by simp [htk])) hlast']
      cases hjj : joinSp (b :: rr) with
      | nil => exact absurd hjj hj
      | cons y ys => rw [List.getLast?_cons_cons]

/-- resLineBytes is the space-join of its tokens. -/
lemma resLineBytes_eq_joinSp (order : Bool) (w h : Nat) :
    resLineBytes order w h = joinSp (resToks order w h) := by
  cases order <;> rfl

/-- Every token of the resolution line is nonempty and whitespace-free. -/
lemma resToks_wf (order : Bool) (w h : Nat) :
    ∀ tk ∈ resToks order w h, tk ≠ [] ∧ ∀ b ∈ tk, jsIsWs b = false := by
  intro tk htk
  cases order <;> simp [resToks] at htk <;>
    rcases htk with h | h | h | h <;> subst h <;>
    first
    | exact ⟨by decide, by decide⟩
    | exact ⟨natDec_ne_nil _, natDec_not_ws _⟩

/-- Splitting the constructed resolution line recovers its four tokens. -/
lemma jsSplitWs_resLine (order : Bool) (w h : Nat) :
    jsSplitWs (resLineBytes order w h) = resToks order w h := by
  rw [resLineBytes_eq_joinSp]
  exact jsSplitWsAux_joinSp (resToks order w h) _
    (by cases order <;> simp [resToks])
    (resToks_wf order w h)
    (Nat.lt_succ_self _)

/-- Membership in a space-join: the space or some token's byte. -/
lemma joinSp_mem : ∀ (toks : List (List Nat)) (b : Nat),
    b ∈ joinSp toks → b = 32 ∨ ∃ tk ∈ toks, b ∈ tk := by
  intro toks
  induction toks with
  | nil => intro b hb; simp [joinSp] at hb
  | cons t rest ih =>
    intro b hb
    cases rest with
    | nil => exact Or.inr ⟨t, by simp, hb⟩
    | cons u rr =>
      rw [joinSp_cons₂] at hb
      rcases List.mem_append.mp hb with h | h
      · exact Or.inr ⟨t, by simp, h⟩
      · rcases List.mem_cons.mp h with h32 | h
        · exact Or.inl h32
        · rcases ih b h with h32 | ⟨tk, htk, hbtk⟩
          · exact Or.inl h32
          · exact Or.inr ⟨tk, List.mem_cons_of_mem t htk, hbtk⟩

/-- No byte of the constructed resolution line is a newline. -/
lemma resLineBytes_no_newline (order : Bool) (w h : Nat) :
    ∀ b ∈ resLineBytes order w h, b ≠ 10 := by
  intro b hb
  rw [resLineBytes_eq_joinSp] at hb
  rcases joinSp_mem _ b hb with h32 | ⟨tk, htk, hbtk⟩
  · omega
  · have hws := (resToks_wf order w h tk htk).2 b hbtk
    intro heq
    rw [heq] at hws
    simp [jsIsWs] at hws

/-- A byte named by getLast? is a member. -/
lemma mem_of_getLast? {l : List Nat} {b : Nat} (h : l.getLast? = some b) : b ∈ l := by
  rcases List.mem_getLast?_eq_getLast ((Option.mem_def).mpr h) with ⟨hne, heq⟩
  rw [heq]
  exact List.getLast_mem hne

/-- Trimming the constructed resolution line changes nothing: it starts with
a sign byte and ends with a digit. -/
lemma jsTrim_resLineBytes (order : Bool) (w h : Nat) :
    jsTrim (resLineBytes order w h) = resLineBytes order w h := by
  apply jsTrim_eq_self
  · intro b hb
    rw [resLineBytes_eq_joinSp] at hb
    cases order with
    | true =>
      rw [show resToks true w h = [[45, 89], natDec h, [43, 88], natDec w] from rfl,
        joinSp_head [45, 89] _ (by decide)] at hb
      simp at hb
      subst hb
      decide
    | false =>
      rw [show resToks false w h = [[43, 88], natDec w, [45, 89], natDec h] from rfl,
        joinSp_head [43, 88] _ (by decide)] at hb
      simp at hb
      subst hb
      decide
  · intro b hb
    rw [List.head?_reverse, resLineBytes_eq_joinSp] at hb
    have hdigit : 48 ≤ b ∧ b ≤ 57 := by
      cases order with
      | true =>
        rw [show resToks true w h = [[45, 89], natDec h, [43, 88], natDec w] from rfl,
          joinSp_getLast? _ (natDec w)
            (by
              intro tk htk
              exact (resToks_wf true w h tk (by simpa [resToks] using htk)).1)
            (by simp)] at hb
        exact natDec_digits w b (mem_of_getLast? hb)
      | false =>
        rw [show resToks false w h = [[43, 88], natDec w, [45, 89], natDec h] from rfl,
          joinSp_getLast? _ (natDec h)
            (by
              intro tk htk
              exact (resToks_wf false w h tk (by simpa [resToks] using htk)).1)
            (by simp)] at hb
        exact natDec_digits h b (mem_of_getLast? hb)
    simp [jsIsWs]
    omega

/-! ## The variable block of a constructed header -/

/-- The variable loop on `FORMAT=32-bit_rle_rgbe\n\n...` records the format
and stops at the blank line. -/
lemma varLoop_fmt (rest : List Nat) (fmt0 : List Nat) :
    ∀ fuel, 2 ≤ fuel →
    varLoop fuel ((fmtKey ++ fmtVal) ++ 10 :: 10 :: rest) fmt0 = (fmtVal, rest) := by
  intro fuel hf
  obtain ⟨f, rfl⟩ : ∃ f, fuel = f + 2 := ⟨fuel - 2, by omega⟩
  have h1 : readLine ((fmtKey ++ fmtVal) ++ 10 :: (10 :: rest)) =
      (jsTrim (fmtKey ++ fmtVal), 10 :: rest) := readLine_append _ _ (by decide)
  have h2 : jsTrim (fmtKey ++ fmtVal) = fmtKey ++ fmtVal := by decide
  have h3 : readLine (10 :: rest) = ([], rest) := by
    have h := readLine_append [] rest (by simp)
    simpa using h
  show varLoop (f + 1 + 1) ((fmtKey ++ fmtVal) ++ 10 :: 10 :: rest) fmt0 = (fmtVal, rest)
  rw [varLoop, h1]
  simp only [h2]
  rw [if_neg (by decide : ¬ (fmtKey ++ fmtVal).isEmpty = true)]
  rw [if_pos (by decide : jsStartsWith fmtKey (fmtKey ++ fmtVal) = true)]
  rw [show (jsSplitChar 61 (fmtKey ++ fmtVal)).getD 1 [] = fmtVal from by decide]
  rw [varLoop, h3]
  simp

/-! ## The token loop on a constructed resolution line -/

/-- Folding the token-pair loop over the constructed tokens identifies the
axes in either order. -/
lemma parseRes_resToks (order : Bool) (w h : Nat) :
    parseRes (resToks order w h) = (some (w : Int), some (h : Int)) := by
  have hyx : jsParseInt [45, 89] = none := by decide
  have hxw : jsParseInt [43, 88] = none := by decide
  have u45 : jsUpper 45 = 45 := by decide
  have u89 : jsUpper 89 = 89 := by decide
  have u43 : jsUpper 43 = 43 := by decide
  have u88 : jsUpper 88 = 88 := by decide
  cases order with
  | true =>
    have s1 : resStep (none, none) ([45, 89], natDec h) = (none, some (h : Int)) := by
      simp [resStep, jsParseInt_natDec, u45, u89]
    have s2 : resStep (none, some (h : Int)) (natDec h, [43, 88]) =
        (none, some (h : Int)) := by
      simp [resStep, hxw]
    have s3 : resStep (none, some (h : Int)) ([43, 88], natDec w) =
        (some (w : Int), some (h : Int)) := by
      simp [resStep, jsParseInt_natDec, u43, u88]
    show parseRes [[45, 89], natDec h, [43, 88], natDec w] = _
    unfold parseRes
    simp only [List.drop_succ_cons, List.drop_zero, List.zip_cons_cons,
      List.zipWith_nil_right, List.zip_nil_right, List.foldl_cons, List.foldl_nil,
      s1, s2, s3]
  | false =>
    have s1 : resStep (none, none) ([43, 88], natDec w) = (some (w : Int), none) := by
      simp [resStep, jsParseInt_natDec, u43, u88]
    have s2 : resStep (some (w : Int), none) (natDec w, [45, 89]) =
        (some (w : Int), none) := by
      simp [resStep, hyx]
    have s3 : resStep (some (w : Int), none) ([45, 89], natDec h) =
        (some (w : Int), some (h : Int)) := by
      simp [resStep, jsParseInt_natDec, u45, u89]
    show parseRes [[43, 88], natDec w, [45, 89], natDec h] = _
    unfold parseRes
    simp only [List.drop_succ_cons, List.drop_zero, List.zip_cons_cons,
      List.zipWith_nil_right, List.zip_nil_right, List.foldl_cons, List.foldl_nil,
      s1, s2, s3]

/-! ## Decoding a constructed input reaches the row loop -/

/-- falsiness of a positive natural width/height. -/
lemma jsFalsy_pos (n : Nat) (h : 1 ≤ n) : jsFalsy (some (n : Int)) = false := by
  simp [jsFalsy]
  omega

/-- The resolution phase on a constructed resolution line yields exactly the
encoded width and height. -/
lemma resPhase_resLine (order : Bool) (w h : Nat) (hw : 1 ≤ w) (hh : 1 ≤ h) :
    resPhase (resLineBytes order w h) = (some (w : Int), some (h : Int)) := by
  unfold resPhase
  simp only [jsTrim_resLineBytes, jsSplitWs_resLine, parseRes_resToks,
    jsFalsy_pos w hw, jsFalsy_pos h hh, Bool.or_self, Bool.false_eq_true, if_false]

/-- Header processing of `mkInput`: the decoder on a constructed input is
exactly the row loop on the body, with the parsed width and height. -/
lemma parse_mkInput (order : Bool) (w h : Nat) (body : List Nat)
    (hw : 1 ≤ w) (hh : 1 ≤ h) :
    parseRadianceHDR (mkInput order w h body) =
      match decodeRows h 0 w body (List.replicate (w * 4) 0)
          (List.replicate (w * h * 3) 0) with
      | .ok d => .ok ⟨(w : Int), (h : Int), d⟩
      | .err 0 => .err .unsupportedScanline
      | .err _ => .err .scanlineWidthMismatch
      | .diverge => .diverge := by
  have e1 : readLine (mkInput order w h body) =
      (magicRad, fmtKey ++ fmtVal ++ 10 :: 10 :: (resLineBytes order w h ++ 10 :: body)) := by
    unfold mkInput
    rw [readLine_append magicRad _ (by decide)]
    rw [show jsTrim magicRad = magicRad from by decide]
  have e2 : (!jsStartsWith magicRad magicRad && !jsStartsWith magicRgbe magicRad) = false := by
    decide
  have e3 : varLoop
      ((fmtKey ++ fmtVal ++ 10 :: 10 :: (resLineBytes order w h ++ 10 :: body)).length + 1)
      (fmtKey ++ fmtVal ++ 10 :: 10 :: (resLineBytes order w h ++ 10 :: body)) [] =
      (fmtVal, resLineBytes order w h ++ 10 :: body) := by
    rw [show fmtKey ++ fmtVal ++ 10 :: 10 :: (resLineBytes order w h ++ 10 :: body) =
      (fmtKey ++ fmtVal) ++ 10 :: 10 :: (resLineBytes order w h ++ 10 :: body) from
      (List.append_assoc fmtKey fmtVal _).symm]
    apply varLoop_fmt
    simp [fmtKey, fmtVal]
  have e5 : readLine (resLineBytes order w h ++ 10 :: body) =
      (resLineBytes order w h, body) := by
    rw [readLine_append _ _ (resLineBytes_no_newline order w h),
      jsTrim_resLineBytes]
  have e8 : resPhase (resLineBytes order w h) = (some (w : Int), some (h : Int)) :=
    resPhase_resLine order w h hw hh
  have e9 : jsFalsy (some (w : Int)) = false := jsFalsy_pos w hw
  have e10 : jsFalsy (some (h : Int)) = false := jsFalsy_pos h hh
  have e11 : ¬ ((w : Int) * (h : Int) * 3 < 0) := by
    push_neg
    positivity
  have e12 : ¬ ((w : Int) * 4 < 0) := by
    push_neg
    positivity
  have e13 : ((w : Int)).toNat = w := Int.toNat_natCast w
  have e13h : ((h : Int)).toNat = h := Int.toNat_natCast h
  have e14 : ((w : Int) * (h : Int) * 3).toNat = w * h * 3 := by
    rw [show (w : Int) * (h : Int) * 3 = ((w * h * 3 : Nat) : Int) from by push_cast; ring,
      Int.toNat_natCast]
  simp only [parseRadianceHDR, scanPhase, e1, e2, Bool.false_eq_true, if_false, e3,
    ne_eq, not_true_eq_false, e5, e8, e9, e10, Bool.or_self, Option.getD_some, e11,
    e12, e13, e13h, e14, ite_false]

/-- C1, amended: there is no flat-encoding fallback. For every constructed
well-formed header and any body whose first byte is not `2`, the decoder
fails with `Unsupported scanline format` instead of flat-decoding the row. -/
theorem C1_no_flat_fallback (order : Bool) (w h : Nat) (body : List Nat)
    (hw : 1 ≤ w) (hh : 1 ≤ h) (hb : body.head? ≠ some 2) :
    parseRadianceHDR (mkInput order w h body) = .err .unsupportedScanline := by
  rw [parse_mkInput order w h body hw hh]
  obtain ⟨k, rfl⟩ : ∃ k, h = k + 1 := ⟨h - 1, by omega⟩
  have hcond : ¬ (body.get? 0 = some 2 ∧ body.get? 1 = some 2) := by
    rintro ⟨h1, -⟩
    cases body with
    | nil => simp at h1
    | cons b t =>
      simp at h1
      exact hb (by simp [h1])
  rw [decodeRows, if_neg hcond]

/-- C1, witness: the amended theorem at a 1x1 header with body `[7]`. -/
theorem C1_witness :
    (([7] : List Nat).head? ≠ some 2) ∧
    parseRadianceHDR (mkInput true 1 1 [7]) = .err .unsupportedScanline :=
  ⟨by decide, C1_no_flat_fallback true 1 1 [7] (by decide) (by decide) (by decide)⟩

/-! ## The span loop accepts exactly a well-formed serialized plane -/

/-- take of the left part of an append. -/
lemma take_len_append : ∀ (a b : List Nat), (a ++ b).take a.length = a := by
  intro a b
  induction a with
  | nil => rfl
  | cons x t ih => simp [List.take_cons, ih]

/-- drop of the left part of an append. -/
lemma drop_len_append : ∀ (a b : List Nat), (a ++ b).drop a.length = b := by
  intro a b
  induction a with
  | nil => rfl
  | cons x t ih =>
    simp only [List.cons_append, List.length_cons, List.drop_succ_cons]
    exact ih

/-- Decoding the serialization of well-formed spans that exactly cover the
remaining columns succeeds, consumes exactly the serialized bytes, and
leaves the rest of the buffer untouched. -/
lemma decodeSpans_ser :
    ∀ (ss : List RleSpan) (fuel : Nat) (rest : List Nat) (x w c : Nat) (sl : List Nat),
      spansWf ss → x + coverSpans ss = w → ss.length < fuel →
      ∃ sl', decodeSpans fuel w c (serSpans ss ++ rest) x sl = .ok sl' rest := by
  intro ss
  induction ss with
  | nil =>
    intro fuel rest x w c sl _ hcov hfuel
    obtain ⟨f, rfl⟩ : ∃ f, fuel = f + 1 := ⟨fuel - 1, by omega⟩
    refine ⟨sl, ?_⟩
    have hxw : ¬ x < w := by
      simp [coverSpans] at hcov
      omega
    rw [show serSpans [] ++ rest = rest from by simp [serSpans]]
    simp only [decodeSpans, if_neg hxw]
  | cons s t ih =>
    intro fuel rest x w c sl hwf hcov hfuel
    obtain ⟨f, rfl⟩ : ∃ f, fuel = f + 1 := ⟨fuel - 1, by omega⟩
    have hs : spanWf s := hwf s (by simp)
    have htwf : spansWf t := fun u hu => hwf u (by simp [hu])
    have hxw : x < w := by
      have hc : 1 ≤ spanCover s := by
        cases s with
        | run n v => exact hs.1
        | lit vs => exact hs.1
      simp only [coverSpans] at hcov
      omega
    cases s with
    | run n v =>
      have hn : 1 ≤ n := hs.1
      have hser : serSpans (RleSpan.run n v :: t) ++ rest =
          (128 + n) :: (v :: (serSpans t ++ rest)) := by
        simp [serSpans, spanSer]
      rw [hser]
      simp only [decodeSpans, if_pos hxw, List.headD_cons, List.drop_one, List.tail_cons]
      rw [if_pos (by omega : 128 < 128 + n)]
      have hsub : 128 + n - 128 = n := by omega
      rw [hsub]
      apply ih f rest (x + n) w c _ htwf _ (by simp at hfuel ⊢; omega)
      simp only [coverSpans, spanCover] at hcov
      omega
    | lit vs =>
      have hlen : 1 ≤ vs.length ∧ vs.length ≤ 128 := ⟨hs.1, hs.2.1⟩
      have hser : serSpans (RleSpan.lit vs :: t) ++ rest =
          vs.length :: (vs ++ (serSpans t ++ rest)) := by
        simp [serSpans, spanSer]
      rw [hser]
      simp only [decodeSpans, if_pos hxw]
      rw [if_neg (by omega : ¬ 128 < vs.length)]
      rw [take_len_append vs (serSpans t ++ rest), drop_len_append vs (serSpans t ++ rest)]
      have hrep : vs.length - (vs ++ (serSpans t ++ rest)).length = 0 := by
        simp
      rw [hrep]
      simp only [List.replicate_zero, List.append_nil]
      apply ih f rest (x + vs.length) w c _ htwf _ (by simp at hfuel ⊢; omega)
      simp only [coverSpans, spanCover] at hcov
      omega

/-- Serialization emits at least one byte per span. -/
lemma serSpans_length_ge : ∀ ss : List RleSpan, ss.length ≤ (serSpans ss).length := by
  intro ss
  induction ss with
  | nil => simp [serSpans]
  | cons s t ih =>
    simp only [serSpans, List.length_cons, List.length_append]
    have : 1 ≤ (spanSer s).length := by
      cases s <;> simp [spanSer]
    omega

/-- One whole plane decodes from its serialization. -/
lemma decodePlane_ser (ss : List RleSpan) (rest : List Nat) (w c : Nat) (sl : List Nat)
    (hwf : spansWf ss) (hcov : coverSpans ss = w) :
    ∃ sl', decodePlane w c (serSpans ss ++ rest) sl = .ok sl' rest := by
  apply decodeSpans_ser ss _ rest 0 w c sl hwf (by omega)
  have h1 := serSpans_length_ge ss
  simp only [List.length_append]
  omega

/-- Unfolding one plane of the four-plane loop. -/
lemma decodePlanesFrom_step (k c w : Nat) (rem rem' sl sl' : List Nat)
    (h : decodePlane w c rem sl = .ok sl' rem') :
    decodePlanesFrom (k + 1) c w rem sl = decodePlanesFrom k (c + 1) w rem' sl' := by
  simp only [decodePlanesFrom, h]

/-- All four planes of a well-formed row decode from their serialization. -/
lemma decodePlanes_row (w : Nat) (r : RowSpec) (rest : List Nat) (sl : List Nat)
    (hwf : rowWf w r) :
    ∃ sl', decodePlanesFrom 4 0 w
        (serSpans r.p0 ++ (serSpans r.p1 ++ (serSpans r.p2 ++ (serSpans r.p3 ++ rest))))
        sl = .ok sl' rest := by
  obtain ⟨sl1, h1⟩ := decodePlane_ser r.p0 _ w 0 sl hwf.1.1 hwf.1.2
  obtain ⟨sl2, h2⟩ := decodePlane_ser r.p1 _ w 1 sl1 hwf.2.1.1 hwf.2.1.2
  obtain ⟨sl3, h3⟩ := decodePlane_ser r.p2 _ w 2 sl2 hwf.2.2.1.1 hwf.2.2.1.2
  obtain ⟨sl4, h4⟩ := decodePlane_ser r.p3 rest w 3 sl3 hwf.2.2.2.1 hwf.2.2.2.2
  refine ⟨sl4, ?_⟩
  rw [decodePlanesFrom_step _ _ _ _ _ _ _ h1,
    decodePlanesFrom_step _ _ _ _ _ _ _ h2,
    decodePlanesFrom_step _ _ _ _ _ _ _ h3,
    decodePlanesFrom_step _ _ _ _ _ _ _ h4]
  rfl

/-- setAt preserves length. -/
lemma setAt_length {α : Type} : ∀ (l : List α) (i : Nat) (v : α),
    (setAt l i v).length = l.length := by
  intro l
  induction l with
  | nil => intro i v; rfl
  | cons a t ih =>
    intro i v
    cases i with
    | zero => rfl
    | succ j => simp [setAt, ih]

/-- writePixel preserves length. -/
lemma writePixel_length (data : List ℚ) (idx : Nat) (p : ℚ × ℚ × ℚ) :
    (writePixel data idx p).length = data.length := by
  simp [writePixel, setAt_length]

/-- The pixel loop preserves the length of the output buffer. -/
lemma writeRowAux_length : ∀ (k x w rb : Nat) (sl : List Nat) (data : List ℚ),
    (writeRowAux k x w rb sl data).length = data.length := by
  intro k
  induction k with
  | zero => intro x w rb sl data; rfl
  | succ j ih =>
    intro x w rb sl data
    simp [writeRowAux, ih, writePixel_length]

/-- The row loop accepts the serialization of well-formed rows and preserves
the size of the output buffer. -/
lemma decodeRows_ser : ∀ (rows : List RowSpec) (w y : Nat) (rest : List Nat)
    (sl : List Nat) (data : List ℚ),
    rowsWf w rows →
    ∃ data', decodeRows rows.length y w (serRows w rows ++ rest) sl data = .ok data' ∧
      data'.length = data.length := by
  intro rows
  induction rows with
  | nil =>
    intro w y rest sl data _
    exact ⟨data, rfl, rfl⟩
  | cons r t ih =>
    intro w y rest sl data hwf
    have hr : rowWf w r := hwf r (by simp)
    have hser : serRows w (r :: t) ++ rest =
        2 :: 2 :: (w / 256) :: (w % 256) ::
          (serSpans r.p0 ++ (serSpans r.p1 ++ (serSpans r.p2 ++ (serSpans r.p3 ++
            (serRows w t ++ rest))))) := by
      simp [serRows, serRow, List.append_assoc]
    obtain ⟨sl', hplanes⟩ := decodePlanes_row w r (serRows w t ++ rest) sl hr
    obtain ⟨data', hrec, hlen⟩ := ih w (y + 1) rest sl'
      (writeRowAux w 0 w (y * w) sl' data) (fun u hu => hwf u (by simp [hu]))
    refine ⟨data', ?_, by rw [hlen, writeRowAux_length]⟩
    rw [hser]
    simp only [List.length_cons, decodeRows]
    rw [if_pos (by simp : (2 :: 2 :: (w / 256) :: (w % 256) ::
      (serSpans r.p0 ++ (serSpans r.p1 ++ (serSpans r.p2 ++ (serSpans r.p3 ++
        (serRows w t ++ rest)))))).get? 0 = some 2 ∧
      (2 :: 2 :: (w / 256) :: (w % 256) ::
      (serSpans r.p0 ++ (serSpans r.p1 ++ (serSpans r.p2 ++ (serSpans r.p3 ++
        (serRows w t ++ rest)))))).get? 1 = some 2)]
    rw [if_pos (by
      simp only [List.getD_cons_succ, List.getD_cons_zero]
      omega : (2 :: 2 :: (w / 256) :: (w % 256) ::
      (serSpans r.p0 ++ (serSpans r.p1 ++ (serSpans r.p2 ++ (serSpans r.p3 ++
        (serRows w t ++ rest)))))).getD 2 0 * 256 +
      (2 :: 2 :: (w / 256) :: (w % 256) ::
      (serSpans r.p0 ++ (serSpans r.p1 ++ (serSpans r.p2 ++ (serSpans r.p3 ++
        (serRows w t ++ rest)))))).getD 3 0 = w)]
    rw [show (2 :: 2 :: (w / 256) :: (w % 256) ::
      (serSpans r.p0 ++ (serSpans r.p1 ++ (serSpans r.p2 ++ (serSpans r.p3 ++
        (serRows w t ++ rest)))))).drop 4 =
      serSpans r.p0 ++ (serSpans r.p1 ++ (serSpans r.p2 ++ (serSpans r.p3 ++
        (serRows w t ++ rest)))) from rfl]
    rw [hplanes]
    exact hrec

/-! ## A constructed well-formed input is a genuine byte stream -/

/-- All serialized row bytes are bytes. -/
lemma serRows_bytes (w : Nat) (hw2 : w ≤ 65535) :
    ∀ (rows : List RowSpec), rowsWf w rows → ∀ b ∈ serRows w rows, b < 256 := by
  intro rows
  induction rows with
  | nil => intro _ b hb; simp [serRows] at hb
  | cons r t ih =>
    intro hwf b hb
    simp only [serRows, List.mem_append] at hb
    rcases hb with hb | hb
    · have hr : rowWf w r := hwf r (by simp)
      have hspan : ∀ (ss : List RleSpan), spansWf ss → b ∈ serSpans ss → b < 256 := by
        intro ss
        induction ss with
        | nil => intro _ hb'; simp [serSpans] at hb'
        | cons sp u ihs =>
          intro hswf hb'
          simp only [serSpans, List.mem_append] at hb'
          rcases hb' with hb' | hb'
          · have hsp : spanWf sp := hswf sp (by simp)
            cases sp with
            | run n v =>
              simp [spanSer] at hb'
              have hn2 := hsp.2.1
              have hv := hsp.2.2
              rcases hb' with h | h <;> subst h <;> omega
            | lit vs =>
              simp [spanSer] at hb'
              rcases hb' with h | h
              · subst h
                have := hsp.2.1
                omega
              · have := hsp.2.2 b h
                omega
          · exact ihs (fun q hq => hswf q (by simp [hq])) hb'
      simp only [serRow, List.mem_cons, List.mem_append] at hb
      rcases hb with h | h | h | h | h
      · omega
      · omega
      · subst h; omega
      · subst h
        have : w % 256 < 256 := Nat.mod_lt _ (by omega)
        omega
      · rcases h with h | h | h | h
        · exact hspan r.p0 hr.1.1 h
        · exact hspan r.p1 hr.2.1.1 h
        · exact hspan r.p2 hr.2.2.1.1 h
        · exact hspan r.p3 hr.2.2.2.1 h
    · exact ih (fun q hq => hwf q (by simp [hq])) b hb

/-- Every byte of a constructed input is a byte value, provided the body is. -/
lemma mkInput_bytes (order : Bool) (w h : Nat) (body : List Nat)
    (hbody : ∀ b ∈ body, b < 256) :
    ∀ b ∈ mkInput order w h body, b < 256 := by
  intro b hb
  simp only [mkInput, List.mem_append, List.mem_cons] at hb
  have hmagic : ∀ c ∈ magicRad, c < 256 := by decide
  have hkey : ∀ c ∈ fmtKey, c < 256 := by decide
  have hval : ∀ c ∈ fmtVal, c < 256 := by decide
  have hres : ∀ c ∈ resLineBytes order w h, c < 256 := by
    intro c hc
    rw [resLineBytes_eq_joinSp] at hc
    rcases joinSp_mem _ c hc with h32 | ⟨tk, htk, hctk⟩
    · omega
    · cases order <;> simp [resToks] at htk <;>
        rcases htk with h | h | h | h <;> subst h <;>
        first
        | (simp at hctk; omega)
        | (have hd := natDec_digits _ c hctk; omega)
  have hb' : b ∈ magicRad ∨ b = 10 ∨ b ∈ fmtKey ∨ b ∈ fmtVal ∨
      b ∈ resLineBytes order w h ∨ b ∈ body := by tauto
  rcases hb' with h | h | h | h | h | h
  · exact hmagic b h
  · omega
  · exact hkey b h
  · exact hval b h
  · exact hres b h
  · exact hbody b h

/-! ## Claim C9 — well-formed inputs decode with the right sample count -/

/-- C9: for every positive width and height (width within the 16-bit range
the sentinel can declare), every list of well-formed rows, and either axis
order in the resolution line, the constructed input is a genuine byte
stream and the decoder succeeds on it, producing an image of exactly
`width*height*3` samples with the expected dimensions. -/
theorem C9_wellformed_decodes (order : Bool) (w h : Nat) (rows : List RowSpec)
    (hw1 : 1 ≤ w) (hw2 : w ≤ 65535) (hh : 1 ≤ h) (hlen : rows.length = h)
    (hwf : rowsWf w rows) :
    (∀ b ∈ mkInput order w h (serRows w rows), b < 256) ∧
    ∃ d, parseRadianceHDR (mkInput order w h (serRows w rows)) =
        .ok ⟨(w : Int), (h : Int), d⟩ ∧ d.length = w * h * 3 := by
  constructor
  · exact mkInput_bytes order w h _ (serRows_bytes w hw2 rows hwf)
  · rw [parse_mkInput order w h _ hw1 hh]
    obtain ⟨d, hd, hdl⟩ := decodeRows_ser rows w 0 [] (List.replicate (w * 4) 0)
      (List.replicate (w * h * 3) 0) hwf
    rw [List.append_nil, hlen] at hd
    rw [hd]
    exact ⟨d, rfl, by rw [hdl]; simp⟩

/-- C9, witness: both resolution-line orders at width 3, height 2, with each
plane a single 3-byte literal span; the two resolution lines are exactly
the bytes of `-Y 2 +X 3` and `+X 3 -Y 2`. -/
theorem C9_witness :
    (resLineBytes true 3 2 = [45, 89, 32, 50, 32, 43, 88, 32, 51] ∧
     resLineBytes false 3 2 = [43, 88, 32, 51, 32, 45, 89, 32, 50]) ∧
    (∃ d, parseRadianceHDR (mkInput true 3 2 (serRows 3
        [⟨[.lit [1, 2, 3]], [.lit [4, 5, 6]], [.lit [7, 8, 9]], [.lit [10, 11, 12]]⟩,
         ⟨[.lit [1, 2, 3]], [.lit [4, 5, 6]], [.lit [7, 8, 9]], [.lit [10, 11, 12]]⟩])) =
        .ok ⟨(3 : Int), (2 : Int), d⟩ ∧ d.length = 3 * 2 * 3) ∧
    (∃ d, parseRadianceHDR (mkInput false 3 2 (serRows 3
        [⟨[.lit [1, 2, 3]], [.lit [4, 5, 6]], [.lit [7, 8, 9]], [.lit [10, 11, 12]]⟩,
         ⟨[.lit [1, 2, 3]], [.lit [4, 5, 6]], [.lit [7, 8, 9]], [.lit [10, 11, 12]]⟩])) =
        .ok ⟨(3 : Int), (2 : Int), d⟩ ∧ d.length = 3 * 2 * 3) :=
  ⟨⟨by decide, by decide⟩,
   (C9_wellformed_decodes true 3 2 _ (by decide) (by decide) (by decide) (by decide)
      (by decide)).2,
   (C9_wellformed_decodes false 3 2 _ (by decide) (by decide) (by decide) (by decide)
      (by decide)).2⟩

/-- The rest returned by readLine is part of the input. -/
lemma readLine_snd_subset (rem : List Nat) : ∀ b ∈ (readLine rem).2, b ∈ rem := by
  intro b hb
  unfold readLine at hb
  simp only at hb
  exact (List.dropWhile_sublist _).subset (List.drop_subset 1 _ hb)

/-- The rest returned by the variable loop is part of the input. -/
lemma varLoop_snd_subset : ∀ (fuel : Nat) (rem fmt : List Nat),
    ∀ b ∈ (varLoop fuel rem fmt).2, b ∈ rem := by
  intro fuel
  induction fuel with
  | zero => intro rem fmt b hb; exact hb
  | succ f ih =>
    intro rem fmt b hb
    simp only [varLoop] at hb
    by_cases hemp : (readLine rem).1.isEmpty
    · rw [if_pos hemp] at hb
      exact readLine_snd_subset rem b hb
    · rw [if_neg hemp] at hb
      exact readLine_snd_subset rem b (ih _ _ b hb)

/-- Membership after a store: the stored value or an original element. -/
lemma mem_setAt {α : Type} : ∀ (l : List α) (i : Nat) (v x : α),
    x ∈ setAt l i v → x = v ∨ x ∈ l := by
  intro l
  induction l with
  | nil => intro i v x hx; simp [setAt] at hx
  | cons a t ih =>
    intro i v x hx
    cases i with
    | zero =>
      simp [setAt] at hx
      rcases hx with h | h
      · exact Or.inl h
      · exact Or.inr (by simp [h])
    | succ j =>
      simp [setAt] at hx
      rcases hx with h | h
      · exact Or.inr (by simp [h])
      · rcases ih j v x h with h' | h'
        · exact Or.inl h'
        · exact Or.inr (by simp [h'])

/-- Membership after a run write. -/
lemma mem_writeRun : ∀ (cnt : Nat) (sl : List Nat) (i rep x : Nat),
    x ∈ writeRun sl i rep cnt → x = rep ∨ x ∈ sl := by
  intro cnt
  induction cnt with
  | zero => intro sl i rep x hx; exact Or.inr hx
  | succ c ih =>
    intro sl i rep x hx
    rcases ih (setAt sl i rep) (i + 1) rep x hx with h | h
    · exact Or.inl h
    · exact mem_setAt sl i rep x h

/-- Membership after a literal write. -/
lemma mem_writeLits : ∀ (vs : List Nat) (sl : List Nat) (i x : Nat),
    x ∈ writeLits sl i vs → x ∈ vs ∨ x ∈ sl := by
  intro vs
  induction vs with
  | nil => intro sl i x hx; exact Or.inr hx
  | cons v t ih =>
    intro sl i x hx
    rcases ih (setAt sl i v) (i + 1) x hx with h | h
    · exact Or.inl (by simp [h])
    · rcases mem_setAt sl i v x h with h' | h'
      · exact Or.inl (by simp [h'])
      · exact Or.inr h'

/-- The span loop keeps the scanline made of bytes and only ever returns a
suffix of its input buffer. -/
lemma decodeSpans_inv : ∀ (fuel w c : Nat) (rem : List Nat) (x : Nat) (sl : List Nat)
    (sl' rem' : List Nat),
    decodeSpans fuel w c rem x sl = .ok sl' rem' →
    (∀ b ∈ rem, b < 256) → (∀ b ∈ sl, b < 256) →
    (∀ b ∈ sl', b < 256) ∧ (∀ b ∈ rem', b ∈ rem) := by
  intro fuel
  induction fuel with
  | zero =>
    intro w c rem x sl sl' rem' heq
    simp [decodeSpans] at heq
  | succ f ih =>
    intro w c rem x sl sl' rem' heq hrem hsl
    by_cases hxw : x < w
    · cases rem with
      | nil => simp [decodeSpans, hxw] at heq
      | cons v rest =>
        simp only [decodeSpans, if_pos hxw] at heq
        by_cases hv : 128 < v
        · rw [if_pos hv] at heq
          have hrest : ∀ b ∈ rest.drop 1, b < 256 := fun b hb =>
            hrem b (by simp [List.drop_subset 1 rest hb])
          have hsl2 : ∀ b ∈ writeRun sl (c * w + x) (rest.headD 0) (v - 128), b < 256 := by
            intro b hb
            rcases mem_writeRun _ _ _ _ _ hb with h | h
            · cases rest with
              | nil => simp [h]
              | cons r0 rr =>
                rw [h]
                exact hrem r0 (by simp)
            · exact hsl b h
          have := ih w c (rest.drop 1) (x + (v - 128)) _ sl' rem' heq hrest hsl2
          exact ⟨this.1, fun b hb => by
            have hmem := this.2 b hb
            simp [List.drop_subset 1 rest hmem]⟩
        · rw [if_neg hv] at heq
          have hrest : ∀ b ∈ rest.drop v, b < 256 := fun b hb =>
            hrem b (by simp [List.drop_subset v rest hb])
          have hsl2 : ∀ b ∈ writeLits sl (c * w + x)
              (rest.take v ++ List.replicate (v - rest.length) 0), b < 256 := by
            intro b hb
            rcases mem_writeLits _ _ _ _ hb with h | h
            · rcases List.mem_append.mp h with h' | h'
              · exact hrem b (by simp [List.take_subset v rest h'])
              · have := List.eq_of_mem_replicate h'
                omega
            · exact hsl b h
          have := ih w c (rest.drop v) (x + v) _ sl' rem' heq hrest hsl2
          exact ⟨this.1, fun b hb => by
            have hmem := this.2 b hb
            simp [List.drop_subset v rest hmem]⟩
    · simp only [decodeSpans, if_neg hxw, SpanRes.ok.injEq] at heq
      obtain ⟨rfl, rfl⟩ := heq
      exact ⟨hsl, fun b hb => hb⟩

/-- The four-plane loop enjoys the same invariant. -/
lemma decodePlanesFrom_inv : ∀ (k c w : Nat) (rem sl sl' rem' : List Nat),
    decodePlanesFrom k c w rem sl = .ok sl' rem' →
    (∀ b ∈ rem, b < 256) → (∀ b ∈ sl, b < 256) →
    (∀ b ∈ sl', b < 256) ∧ (∀ b ∈ rem', b ∈ rem) := by
  intro k
  induction k with
  | zero =>
    intro c w rem sl sl' rem' heq hrem hsl
    simp only [decodePlanesFrom, SpanRes.ok.injEq] at heq
    obtain ⟨rfl, rfl⟩ := heq
    exact ⟨hsl, fun b hb => hb⟩
  | succ j ih =>
    intro c w rem sl sl' rem' heq hrem hsl
    cases hp : decodePlane w c rem sl with
    | ok sl1 rem1 =>
      rw [show decodePlanesFrom (j + 1) c w rem sl = decodePlanesFrom j (c + 1) w rem1 sl1
        from by simp only [decodePlanesFrom, hp]] at heq
      have h1 := decodeSpans_inv _ w c rem 0 sl sl1 rem1 hp hrem hsl
      have h2 := ih (c + 1) w rem1 sl1 sl' rem' heq
        (fun b hb => hrem b (h1.2 b hb)) h1.1
      exact ⟨h2.1, fun b hb => h1.2 b (h2.2 b hb)⟩
    | diverge =>
      simp only [decodePlanesFrom, hp] at heq
      exact absurd heq (by simp)
    | fuelOut =>
      simp only [decodePlanesFrom, hp] at heq
      exact absurd heq (by simp)

/-- Reading from a byte list yields a byte (or the default 0). -/
lemma getD_lt : ∀ (l : List Nat) (i : Nat), (∀ b ∈ l, b < 256) → l.getD i 0 < 256 := by
  intro l
  induction l with
  | nil => intro i _; simp [List.getD]
  | cons a t ih =>
    intro i h
    cases i with
    | zero => exact h a (by simp)
    | succ j => exact ih j fun b hb => h b (by simp [hb])

/-- The pixel loop writes only good samples. -/
lemma writeRowAux_good : ∀ (k x w rb : Nat) (sl : List Nat) (data : List ℚ),
    (∀ b ∈ sl, b < 256) → (∀ s ∈ data, GoodSample s) →
    ∀ s ∈ writeRowAux k x w rb sl data, GoodSample s := by
  intro k
  induction k with
  | zero => intro x w rb sl data _ hdata s hs; exact hdata s hs
  | succ j ih =>
    intro x w rb sl data hsl hdata s hs
    apply ih (x + 1) w rb sl _ hsl _ s hs
    intro q hq
    unfold writePixel at hq
    have hpix : GoodSample (rgbeToLinear (sl.getD x 0) (sl.getD (w + x) 0)
        (sl.getD (2 * w + x) 0) (sl.getD (3 * w + x) 0)).1 ∧
        GoodSample (rgbeToLinear (sl.getD x 0) (sl.getD (w + x) 0)
        (sl.getD (2 * w + x) 0) (sl.getD (3 * w + x) 0)).2.1 ∧
        GoodSample (rgbeToLinear (sl.getD x 0) (sl.getD (w + x) 0)
        (sl.getD (2 * w + x) 0) (sl.getD (3 * w + x) 0)).2.2 := by
      by_cases he : sl.getD (3 * w + x) 0 = 0
      · simp only [rgbeToLinear, if_pos he]
        exact ⟨Or.inl rfl, Or.inl rfl, Or.inl rfl⟩
      · have hebound := getD_lt sl (3 * w + x) hsl
        have hr := getD_lt sl x hsl
        have hg := getD_lt sl (w + x) hsl
        have hbb := getD_lt sl (2 * w + x) hsl
        simp only [rgbeToLinear, if_neg he]
        exact ⟨Or.inr ⟨sl.getD x 0, sl.getD (3 * w + x) 0,
            by omega, by omega, by omega, rfl⟩,
          Or.inr ⟨sl.getD (w + x) 0, sl.getD (3 * w + x) 0,
            by omega, by omega, by omega, rfl⟩,
          Or.inr ⟨sl.getD (2 * w + x) 0, sl.getD (3 * w + x) 0,
            by omega, by omega, by omega, rfl⟩⟩
    rcases mem_setAt _ _ _ _ hq with h | h
    · rw [h]; exact hpix.2.2
    · rcases mem_setAt _ _ _ _ h with h' | h'
      · rw [h']; exact hpix.2.1
      · rcases mem_setAt _ _ _ _ h' with h'' | h''
        · rw [h'']; exact hpix.1
        · exact hdata q h''

/-- The row loop writes only good samples. -/
lemma decodeRows_good : ∀ (k y w : Nat) (rem sl : List Nat) (data data' : List ℚ),
    decodeRows k y w rem sl data = .ok data' →
    (∀ b ∈ rem, b < 256) → (∀ b ∈ sl, b < 256) → (∀ s ∈ data, GoodSample s) →
    ∀ s ∈ data', GoodSample s := by
  intro k
  induction k with
  | zero =>
    intro y w rem sl data data' heq _ _ hdata
    simp only [decodeRows, RowsRes.ok.injEq] at heq
    subst heq
    exact hdata
  | succ j ih =>
    intro y w rem sl data data' heq hrem hsl hdata
    by_cases hc1 : rem.get? 0 = some 2 ∧ rem.get? 1 = some 2
    · rw [decodeRows, if_pos hc1] at heq
      by_cases hc2 : (rem.getD 2 0) * 256 + rem.getD 3 0 = w
      · rw [if_pos hc2] at heq
        cases hp : decodePlanesFrom 4 0 w (rem.drop 4) sl with
        | ok sl1 rem1 =>
          rw [hp] at heq
          have hinv := decodePlanesFrom_inv 4 0 w (rem.drop 4) sl sl1 rem1 hp
            (fun b hb => hrem b (List.drop_subset 4 rem hb)) hsl
          exact ih (y + 1) w rem1 sl1 _ data' heq
            (fun b hb => hrem b (List.drop_subset 4 rem (hinv.2 b hb)))
            hinv.1
            (writeRowAux_good w 0 w (y * w) sl1 data hinv.1 hdata)
        | diverge => rw [hp] at heq; simp at heq
        | fuelOut => rw [hp] at heq; simp at heq
      · rw [if_neg hc2] at heq; simp at heq
    · rw [decodeRows, if_neg hc1] at heq; simp at heq

/-- A good sample is non-negative and at most `255 * 2^119` (so it is a
finite single-precision value: the largest possible sample is far below the
Float32 maximum of about `3.4e38 > 2^128`). -/
lemma GoodSample_bounds (s : ℚ) (h : GoodSample s) : 0 ≤ s ∧ s ≤ 255 * 2 ^ 119 := by
  rcases h with rfl | ⟨v, e, hv, he1, he255, rfl⟩
  · exact ⟨le_refl 0, by norm_num⟩
  · have hle : (2 : ℚ) ^ ((e : ℤ) - 128) ≤ (2 : ℚ) ^ (127 : ℤ) := by
      apply zpow_le_zpow_right₀ (by norm_num : (1:ℚ) ≤ 2)
      omega
    constructor
    · positivity
    · have h1 : (v : ℚ) ≤ 255 := by exact_mod_cast hv
      have h2 : (2 : ℚ) ^ ((e : ℤ) - 128) / 256 ≤ (2 : ℚ) ^ (127 : ℤ) / 256 := by
        linarith
      have h3 : (0 : ℚ) ≤ (2 : ℚ) ^ ((e : ℤ) - 128) / 256 := by positivity
      calc (v : ℚ) * ((2 : ℚ) ^ ((e : ℤ) - 128) / 256)
          ≤ 255 * ((2 : ℚ) ^ (127 : ℤ) / 256) := mul_le_mul h1 h2 h3 (by norm_num)
        _ = 255 * 2 ^ 119 := by
            rw [show ((127 : ℤ)) = ((127 : Nat) : ℤ) from rfl, zpow_natCast]
            norm_num

/-- A successful run of the allocation and row-loop stage only produces
good samples, provided the body is made of bytes. -/
lemma scanPhase_good (w h : Int) (body : List Nat) (img : RadImage)
    (hok : scanPhase w h body = .ok img) (hbody : ∀ b ∈ body, b < 256) :
    ∀ s ∈ img.data, GoodSample s := by
  unfold scanPhase at hok
  split at hok
  · exact absurd hok (by simp)
  · split at hok
    · exact absurd hok (by simp)
    · split at hok
      next d heq =>
        intro s hs
        have himg : ({ width := w, height := h, data := d } : RadImage) = img := by
          injection hok with h'
        rw [← himg] at hs
        apply decodeRows_good _ 0 _ body _ _ d heq hbody ?_ ?_ s hs
        · intro b hb
          have := List.eq_of_mem_replicate hb
          omega
        · intro q hq
          rw [List.eq_of_mem_replicate hq]
          exact Or.inl rfl
      next => exact absurd hok (by simp)
      next => exact absurd hok (by simp)
      next => exact absurd hok (by simp)

/-- C10: every sample of a successfully decoded image is non-negative and
bounded by `255 * 2^119` (in particular finite and never NaN in the modelled
arithmetic), and is either exactly zero or a plane byte in `[0,255]` scaled
by `2^(e-128)/256` for an exponent byte `e` in `[1,255]`. -/
theorem C10_samples_nonneg_finite (bytes : List Nat) (img : RadImage)
    (hok : parseRadianceHDR bytes = .ok img)
    (hbytes : ∀ b ∈ bytes, b < 256) :
    ∀ s ∈ img.data, 0 ≤ s ∧ s ≤ 255 * 2 ^ 119 ∧ GoodSample s := by
  simp only [parseRadianceHDR] at hok
  split at hok
  · exact absurd hok (by simp)
  · split at hok
    · exact absurd hok (by simp)
    · split at hok
      · exact absurd hok (by simp)
      · intro s hs
        have hsub : ∀ b ∈ (readLine (varLoop ((readLine bytes).2.length + 1)
            (readLine bytes).2 []).2).2, b < 256 := by
          intro b hb
          exact hbytes b (readLine_snd_subset bytes b
            (varLoop_snd_subset _ _ _ b (readLine_snd_subset _ b hb)))
        have hg := scanPhase_good _ _ _ img hok hsub s hs
        exact ⟨(GoodSample_bounds s hg).1, (GoodSample_bounds s hg).2, hg⟩

/-- C10, witness: the theorem applied to a concrete successful decode. -/
theorem C10_witness :
    parseRadianceHDR c10Input = .ok c10Img ∧ (∀ b ∈ c10Input, b < 256) ∧
    ∀ s ∈ c10Img.data, 0 ≤ s ∧ s ≤ 255 * 2 ^ 119 ∧ GoodSample s :=
  ⟨by decide, by decide,
   C10_samples_nonneg_finite c10Input c10Img (by decide) (by decide)⟩
